import Mathlib

/-!
Verification development for the ChessBase mini-app core
(`src/hooks/useChessGame.ts`, `src/hooks/useMatchmaking.ts`, `src/utils/chessAi.ts`).

The game engine delegates chess rules to the chess.js library; that library is
modelled here by an executable implementation of the documented chess.js
interface (move generation, FEN encoding, SAN rendering, undo history,
status predicates).  JavaScript strings are modelled by `String`
(assembled from explicit character lists), JS `Map` by an
insertion-ordered association list, and IEEE-754 numbers appearing in the
AI (which only ever take the values `±Infinity` or integers) by the
`Score` type below.

Board coordinates follow chess.js `board()` / FEN order: row `r = 0` is
rank 8 and file `f = 0` is the a-file, so the white pieces start on rows
6 and 7 and white pawns advance by `r - 1`.
-/

namespace CB

inductive Color where
  | w
  | b
deriving DecidableEq, Repr

def Color.other : Color → Color
  | .w => .b
  | .b => .w

inductive PType where
  | p
  | n
  | b
  | r
  | q
  | k
deriving DecidableEq, Repr

structure Piece where
  color : Color
  ptype : PType
deriving DecidableEq, Repr

/-- Pawn advance direction in row coordinates (white moves toward row 0). -/
def dir : Color → Int
  | .w => -1
  | .b => 1

def inBounds (r f : Int) : Prop := 0 ≤ r ∧ r < 8 ∧ 0 ≤ f ∧ f < 8

instance (r f : Int) : Decidable (inBounds r f) := by
  unfold inBounds; infer_instance

/-- The 8x8 board, row-major with index `8*r + f` (row 0 = rank 8). -/
def Board := List (Option Piece)

instance : DecidableEq Board := by
  unfold Board; infer_instance

def boardGet (bd : Board) (r f : Int) : Option Piece :=
  if inBounds r f then (bd.getD (8 * r + f).toNat none) else none

def boardSet (bd : Board) (r f : Int) (v : Option Piece) : Board :=
  bd.set (8 * r + f).toNat v

structure Castling where
  wk : Bool
  wq : Bool
  bk : Bool
  bq : Bool
deriving DecidableEq, Repr

structure Position where
  board : Board
  turn : Color
  castling : Castling
  ep : Option (Int × Int)
  halfmoves : Nat
  fullmoves : Nat
deriving DecidableEq

inductive CastleKind where
  | none
  | king
  | queen
deriving DecidableEq, Repr

/-- A verbose chess.js move object. -/
structure Move where
  color : Color
  fromSq : Int × Int
  toSq : Int × Int
  piece : PType
  captured : Option PType
  promotion : Option PType
  ep : Bool
  double : Bool
  castle : CastleKind
deriving DecidableEq, Repr

/-- Smart constructor used by every branch of the move generator: given the
origin, destination, promotion piece and castle kind it fills in the
remaining chess.js move fields (mover, captured piece, en-passant and
double-push flags) from the position, exactly as chess.js `build_move`
does at the corresponding generation sites. -/
def mkMove (p : Position) (src dst : Int × Int) (promo : Option PType)
    (ck : CastleKind) : Move :=
  let mover := boardGet p.board src.1 src.2
  let pt := match mover with
    | some pc => pc.ptype
    | none => PType.p
  let tgt := boardGet p.board dst.1 dst.2
  let isEp : Bool :=
    decide (ck = CastleKind.none) && decide (pt = PType.p) &&
      decide (p.ep = some dst) && decide (tgt = none)
  let captured : Option PType :=
    if ck ≠ CastleKind.none then none
    else if isEp then some PType.p
    else match tgt with
      | some en => if en.color = p.turn then none else some en.ptype
      | none => none
  { color := p.turn
    fromSq := src
    toSq := dst
    piece := pt
    captured := captured
    promotion := promo
    ep := isEp
    double := decide (pt = PType.p) && decide ((src.1 - dst.1) = 2 ∨ (dst.1 - src.1) = 2)
    castle := ck }

def knightOffsets : List (Int × Int) :=
  [(-2, -1), (-2, 1), (-1, -2), (-1, 2), (1, -2), (1, 2), (2, -1), (2, 1)]

def kingOffsets : List (Int × Int) :=
  [(-1, -1), (-1, 0), (-1, 1), (0, -1), (0, 1), (1, -1), (1, 0), (1, 1)]

def rookDirs : List (Int × Int) := [(-1, 0), (1, 0), (0, -1), (0, 1)]

def bishopDirs : List (Int × Int) := [(-1, -1), (-1, 1), (1, -1), (1, 1)]

def queenDirs : List (Int × Int) := rookDirs ++ bishopDirs

/-- Single-step (knight / king) moves: the destination must be on the board
and not occupied by one of the mover's own pieces. -/
def leaperMoves (p : Position) (src : Int × Int) (offs : List (Int × Int)) :
    List Move :=
  offs.filterMap (fun o =>
    let dst := (src.1 + o.1, src.2 + o.2)
    if inBounds dst.1 dst.2 then
      match boardGet p.board dst.1 dst.2 with
      | some pc => if pc.color = p.turn then none else some (mkMove p src dst none .none)
      | none => some (mkMove p src dst none .none)
    else none)

/-- Walk a sliding ray from `cur` in direction `d`, collecting quiet moves
until a blocker; an enemy blocker is captured, a friendly one stops the ray. -/
def rayWalk (p : Position) (src : Int × Int) (d : Int × Int) :
    Nat → (Int × Int) → List Move
  | 0, _ => []
  | fuel + 1, cur =>
    if inBounds cur.1 cur.2 then
      match boardGet p.board cur.1 cur.2 with
      | none => mkMove p src cur none .none :: rayWalk p src d fuel (cur.1 + d.1, cur.2 + d.2)
      | some pc => if pc.color = p.turn then [] else [mkMove p src cur none .none]
    else []

def slidingMoves (p : Position) (src : Int × Int) (dirs : List (Int × Int)) :
    List Move :=
  dirs.flatMap (fun d => rayWalk p src d 7 (src.1 + d.1, src.2 + d.2))

/-- Promotion pieces in chess.js generation order. -/
def promoPieces : List PType := [.q, .r, .b, .n]

def promoRank : Color → Int
  | .w => 0
  | .b => 7

def pawnStartRow : Color → Int
  | .w => 6
  | .b => 1

/-- Build the pawn move(s) to `dst`, fanning out into the four promotion
pieces when the destination is the promotion rank. -/
def addPawnMove (p : Position) (src dst : Int × Int) : List Move :=
  if dst.1 = promoRank p.turn then
    promoPieces.map (fun pr => mkMove p src dst (some pr) .none)
  else
    [mkMove p src dst none .none]

def pawnMoves (p : Position) (src : Int × Int) : List Move :=
  let d := dir p.turn
  let one : Int × Int := (src.1 + d, src.2)
  let two : Int × Int := (src.1 + 2 * d, src.2)
  let pushes :=
    if inBounds one.1 one.2 ∧ boardGet p.board one.1 one.2 = none then
      addPawnMove p src one ++
        (if src.1 = pawnStartRow p.turn ∧ boardGet p.board two.1 two.2 = none then
          [mkMove p src two none .none]
        else [])
    else []
  let caps := [(-1 : Int), 1].flatMap (fun df =>
    let dst : Int × Int := (src.1 + d, src.2 + df)
    if inBounds dst.1 dst.2 then
      match boardGet p.board dst.1 dst.2 with
      | some pc => if pc.color = p.turn then [] else addPawnMove p src dst
      | none => if p.ep = some dst then [mkMove p src dst none .none] else []
    else [])
  pushes ++ caps

/-- Does a piece of color `c` sitting on `(r, f)` attack `(tr, tf)`?
Sliding attacks additionally require the intermediate squares to be empty. -/
def clearBetween (bd : Board) (r f tr tf : Int) : Nat → Int → Int → Bool
  | 0, _, _ => false
  | fuel + 1, cr, cf =>
    if cr = tr ∧ cf = tf then true
    else if boardGet bd cr cf = none then
      clearBetween bd r f tr tf fuel (cr + (if tr > r then 1 else if tr < r then -1 else 0))
        (cf + (if tf > f then 1 else if tf < f then -1 else 0))
    else false

def pieceAttacks (bd : Board) (pc : Piece) (r f tr tf : Int) : Bool :=
  let dr := tr - r
  let df := tf - f
  let stepR : Int := if tr > r then 1 else if tr < r then -1 else 0
  let stepF : Int := if tf > f then 1 else if tf < f then -1 else 0
  let aligned : Bool := decide (dr = 0 ∧ df ≠ 0) || decide (df = 0 ∧ dr ≠ 0) ||
    decide ((dr = df ∨ dr = -df) ∧ dr ≠ 0)
  let diag : Bool := decide ((dr = df ∨ dr = -df) ∧ dr ≠ 0)
  let straight : Bool := decide (dr = 0 ∧ df ≠ 0) || decide (df = 0 ∧ dr ≠ 0)
  match pc.ptype with
  | .p => decide (dr = dir pc.color ∧ (df = 1 ∨ df = -1))
  | .n => decide ((dr, df) ∈ knightOffsets)
  | .k => decide ((dr, df) ∈ kingOffsets)
  | .b => diag && clearBetween bd r f tr tf 8 (r + stepR) (f + stepF)
  | .r => straight && clearBetween bd r f tr tf 8 (r + stepR) (f + stepF)
  | .q => aligned && clearBetween bd r f tr tf 8 (r + stepR) (f + stepF)

/-- Is the square `(tr, tf)` attacked by any piece of color `c`? -/
def attacked (bd : Board) (c : Color) (tr tf : Int) : Bool :=
  (List.range 64).any (fun i =>
    let r : Int := (i / 8 : Nat)
    let f : Int := (i % 8 : Nat)
    match boardGet bd r f with
    | some pc => decide (pc.color = c) && pieceAttacks bd pc r f tr tf
    | none => false)

def kingHomeRow : Color → Int
  | .w => 7
  | .b => 0

/-- Castling moves.  Generated when the corresponding right is set, the king
and rook stand on their home squares, the squares between them are empty
and the king's current and crossing squares are not attacked (the landing
square is checked by the subsequent legality filter, as in chess.js). -/
def castleMoves (p : Position) : List Move :=
  let row := kingHomeRow p.turn
  let them := p.turn.other
  let kRight := match p.turn with
    | .w => p.castling.wk
    | .b => p.castling.bk
  let qRight := match p.turn with
    | .w => p.castling.wq
    | .b => p.castling.bq
  let kingHome : Bool := decide (boardGet p.board row 4 = some ⟨p.turn, .k⟩)
  let kside :=
    if kRight && kingHome && decide (boardGet p.board row 7 = some ⟨p.turn, .r⟩) &&
        decide (boardGet p.board row 5 = none) && decide (boardGet p.board row 6 = none) &&
        !attacked p.board them row 4 && !attacked p.board them row 5 then
      [mkMove p (row, 4) (row, 6) none .king]
    else []
  let qside :=
    if qRight && kingHome && decide (boardGet p.board row 0 = some ⟨p.turn, .r⟩) &&
        decide (boardGet p.board row 1 = none) && decide (boardGet p.board row 2 = none) &&
        decide (boardGet p.board row 3 = none) &&
        !attacked p.board them row 4 && !attacked p.board them row 3 then
      [mkMove p (row, 4) (row, 2) none .queen]
    else []
  kside ++ qside

def movesFrom (p : Position) (src : Int × Int) : List Move :=
  match boardGet p.board src.1 src.2 with
  | some pc =>
    if pc.color = p.turn then
      match pc.ptype with
      | .p => pawnMoves p src
      | .n => leaperMoves p src knightOffsets
      | .k => leaperMoves p src kingOffsets
      | .b => slidingMoves p src bishopDirs
      | .r => slidingMoves p src rookDirs
      | .q => slidingMoves p src queenDirs
    else []
  | none => []

/-- All pseudo-legal moves of the side to move (legality filter comes later). -/
def pseudoMoves (p : Position) : List Move :=
  (List.range 64).flatMap (fun i =>
    movesFrom p ((i / 8 : Nat), (i % 8 : Nat))) ++ castleMoves p

def findKing (bd : Board) (c : Color) : Option (Int × Int) :=
  (List.range 64).findSome? (fun i =>
    let r : Int := (i / 8 : Nat)
    let f : Int := (i % 8 : Nat)
    if boardGet bd r f = some ⟨c, .k⟩ then some (r, f) else none)

def updateCastling (p : Position) (m : Move) : Castling :=
  let c0 := p.castling
  let c1 :=
    if m.piece = .k then
      match m.color with
      | .w => { c0 with wk := false, wq := false }
      | .b => { c0 with bk := false, bq := false }
    else c0
  let c2 :=
    if m.piece = .r then
      if m.color = .w ∧ m.fromSq = ((7 : Int), (7 : Int)) then { c1 with wk := false }
      else if m.color = .w ∧ m.fromSq = ((7 : Int), (0 : Int)) then { c1 with wq := false }
      else if m.color = .b ∧ m.fromSq = ((0 : Int), (7 : Int)) then { c1 with bk := false }
      else if m.color = .b ∧ m.fromSq = ((0 : Int), (0 : Int)) then { c1 with bq := false }
      else c1
    else c1
  if m.toSq = ((7 : Int), (7 : Int)) then { c2 with wk := false }
  else if m.toSq = ((7 : Int), (0 : Int)) then { c2 with wq := false }
  else if m.toSq = ((0 : Int), (7 : Int)) then { c2 with bk := false }
  else if m.toSq = ((0 : Int), (0 : Int)) then { c2 with bq := false }
  else c2

/-- Apply a generated move to a position (chess.js `make_move`). -/
def applyMove (p : Position) (m : Move) : Position :=
  let c := p.turn
  let mover : Piece := ⟨c, match m.promotion with
    | some pr => pr
    | none => m.piece⟩
  let bd1 := boardSet p.board m.fromSq.1 m.fromSq.2 none
  let bd2 := boardSet bd1 m.toSq.1 m.toSq.2 (some mover)
  let bd3 := if m.ep then boardSet bd2 (m.toSq.1 - dir c) m.toSq.2 none else bd2
  let bd4 :=
    match m.castle with
    | .none => bd3
    | .king =>
      boardSet (boardSet bd3 m.toSq.1 7 none) m.toSq.1 5 (some ⟨c, .r⟩)
    | .queen =>
      boardSet (boardSet bd3 m.toSq.1 0 none) m.toSq.1 3 (some ⟨c, .r⟩)
  { board := bd4
    turn := c.other
    castling := updateCastling p m
    ep := if m.double then some (m.fromSq.1 + dir c, m.fromSq.2) else none
    halfmoves := if m.piece = .p ∨ m.captured.isSome then 0 else p.halfmoves + 1
    fullmoves := if c = .b then p.fullmoves + 1 else p.fullmoves }

/-- Is the king of color `c` attacked in `p`? -/
def kingAttacked (p : Position) (c : Color) : Bool :=
  match findKing p.board c with
  | some sq => attacked p.board c.other sq.1 sq.2
  | none => false

def legalMoves (p : Position) : List Move :=
  (pseudoMoves p).filter (fun m => !kingAttacked (applyMove p m) p.turn)

def inCheck (p : Position) : Bool := kingAttacked p p.turn

def isCheckmate (p : Position) : Bool := inCheck p && legalMoves p = []

def isStalemate (p : Position) : Bool := !inCheck p && legalMoves p = []

/-- chess.js `insufficient_material`. -/
def insufficientMaterial (p : Position) : Bool :=
  let pieces := (List.range 64).filterMap (fun i =>
    match boardGet p.board ((i / 8 : Nat) : Int) ((i % 8 : Nat) : Int) with
    | some pc => some (pc, (i / 8 + i % 8) % 2)
    | none => none)
  let num := pieces.length
  let count (t : PType) := (pieces.filter (fun x => x.1.ptype = t)).length
  let bishops := (pieces.filter (fun x => x.1.ptype = .b)).map Prod.snd
  if num = 2 then true
  else if num = 3 ∧ (count .b = 1 ∨ count .n = 1) then true
  else if num = count .b + 2 then
    bishops.all (fun s => s = 0) || bishops.all (fun s => s = 1)
  else false

/-! FEN encoding. -/

def fileChar : Int → Char
  | 0 => 'a'
  | 1 => 'b'
  | 2 => 'c'
  | 3 => 'd'
  | 4 => 'e'
  | 5 => 'f'
  | 6 => 'g'
  | 7 => 'h'
  | _ => '?'

def rankChar : Int → Char
  | 0 => '8'
  | 1 => '7'
  | 2 => '6'
  | 3 => '5'
  | 4 => '4'
  | 5 => '3'
  | 6 => '2'
  | 7 => '1'
  | _ => '?'

def squareChars (s : Int × Int) : List Char := [fileChar s.2, rankChar s.1]

def runDigit : Nat → Char
  | 1 => '1'
  | 2 => '2'
  | 3 => '3'
  | 4 => '4'
  | 5 => '5'
  | 6 => '6'
  | 7 => '7'
  | 8 => '8'
  | _ => '?'

def pieceCharLower : PType → Char
  | .p => 'p'
  | .n => 'n'
  | .b => 'b'
  | .r => 'r'
  | .q => 'q'
  | .k => 'k'

def pieceCharUpper : PType → Char
  | .p => 'P'
  | .n => 'N'
  | .b => 'B'
  | .r => 'R'
  | .q => 'Q'
  | .k => 'K'

def pieceChar (pc : Piece) : Char :=
  match pc.color with
  | .w => pieceCharUpper pc.ptype
  | .b => pieceCharLower pc.ptype

/-- Run-length encode one board row for FEN. -/
def fenRow : List (Option Piece) → Nat → List Char
  | [], 0 => []
  | [], run => [runDigit run]
  | none :: t, run => fenRow t (run + 1)
  | some pc :: t, 0 => pieceChar pc :: fenRow t 0
  | some pc :: t, run => runDigit run :: pieceChar pc :: fenRow t 0

def fenBoardChars (bd : Board) : List Char :=
  List.intercalate ['/'] ((List.range 8).map (fun r => fenRow ((bd.drop (8 * r)).take 8) 0))

def castlingChars (cs : Castling) : List Char :=
  let l := (if cs.wk then ['K'] else []) ++ (if cs.wq then ['Q'] else []) ++
    (if cs.bk then ['k'] else []) ++ (if cs.bq then ['q'] else [])
  if l = [] then ['-'] else l

def epChars : Option (Int × Int) → List Char
  | some s => squareChars s
  | none => ['-']

def turnChar : Color → Char
  | .w => 'w'
  | .b => 'b'

/-- FEN without the half-move clock and full-move number fields: this is the
encoding chess.js counts positions by for repetition detection
(`trimFen` keeps the first four space-separated fields). -/
def normFenChars (p : Position) : List Char :=
  fenBoardChars p.board ++ [' ', turnChar p.turn, ' '] ++ castlingChars p.castling ++
    [' '] ++ epChars p.ep

def normFen (p : Position) : String := String.mk (normFenChars p)

def fenChars (p : Position) : List Char :=
  normFenChars p ++ [' '] ++ Nat.toDigits 10 p.halfmoves ++ [' '] ++
    Nat.toDigits 10 p.fullmoves

/-- chess.js `fen()`. -/
def fen (p : Position) : String := String.mk (fenChars p)

/-! SAN rendering (chess.js `move_to_san` with the check and mate suffixes
stripped: the replay path `move(san)` compares decoration-stripped SANs, so
the suffixes are irrelevant to the code under verification). -/

/-- The disambiguation fragment of a SAN string (chess.js `get_disambiguator`):
`ms` is the full legal move list of the position. -/
def disambChars (ms : List Move) (m : Move) : List Char :=
  let amb := ms.filter (fun m2 =>
    decide (m2.piece = m.piece) && decide (m2.toSq = m.toSq) && decide (m2.fromSq ≠ m.fromSq))
  if amb.isEmpty then []
  else
    let sameRank := amb.any (fun m2 => decide (m2.fromSq.1 = m.fromSq.1))
    let sameFile := amb.any (fun m2 => decide (m2.fromSq.2 = m.fromSq.2))
    if sameRank && sameFile then squareChars m.fromSq
    else if sameFile then [rankChar m.fromSq.1]
    else [fileChar m.fromSq.2]

def sanChars (ms : List Move) (m : Move) : List Char :=
  match m.castle with
  | .king => ['O', '-', 'O']
  | .queen => ['O', '-', 'O', '-', 'O']
  | .none =>
    (if m.piece ≠ .p then pieceCharUpper m.piece :: disambChars ms m else []) ++
      (if m.captured.isSome then
        (if m.piece = .p then [fileChar m.fromSq.2] else []) ++ ['x']
      else []) ++
      squareChars m.toSq ++
      (match m.promotion with
        | some pr => ['=', pieceCharUpper pr]
        | none => [])

def sanOf (ms : List Move) (m : Move) : String := String.mk (sanChars ms m)

/-- The promotion suffix of a SAN string. -/
def promoChars : Option PType → List Char
  | some pr => ['=', pieceCharUpper pr]
  | none => []


/-! The `Chess` object: a position together with the undo history.  chess.js
stores, for every applied move, the move and enough prior state to restore
the previous position exactly; the model stores the previous `Position`
itself, which carries the same information. -/

structure Chess where
  pos : Position
  /-- Newest first; the second component is the position before the move. -/
  hist : List (Move × Position)
deriving DecidableEq

def backRank (c : Color) : List (Option Piece) :=
  [some ⟨c, .r⟩, some ⟨c, .n⟩, some ⟨c, .b⟩, some ⟨c, .q⟩,
    some ⟨c, .k⟩, some ⟨c, .b⟩, some ⟨c, .n⟩, some ⟨c, .r⟩]

def pawnRank (c : Color) : List (Option Piece) := List.replicate 8 (some ⟨c, .p⟩)

def emptyRank : List (Option Piece) := List.replicate 8 none

def startPos : Position :=
  { board := backRank .b ++ pawnRank .b ++ emptyRank ++ emptyRank ++ emptyRank ++
      emptyRank ++ pawnRank .w ++ backRank .w
    turn := .w
    castling := ⟨true, true, true, true⟩
    ep := none
    halfmoves := 0
    fullmoves := 1 }

/-- `new Chess()`. -/
def newChess : Chess := ⟨startPos, []⟩

def Chess.applyFound (g : Chess) (m : Move) : Chess :=
  ⟨applyMove g.pos m, (m, g.pos) :: g.hist⟩

/-- chess.js `move({from, to, promotion})`: find the first legal move matching
the origin and destination (and the promotion piece, when the move is a
promotion) and apply it; `none` when no legal move matches. -/
def Chess.moveFromTo (g : Chess) (src dst : Int × Int) (promo : PType) :
    Option (Chess × Move) :=
  match (legalMoves g.pos).find? (fun m =>
      decide (m.fromSq = src) && decide (m.toSq = dst) &&
        (decide (m.promotion = none) || decide (m.promotion = some promo))) with
  | some m => some (g.applyFound m, m)
  | none => none

/-- chess.js `move(san)`: find the first legal move whose rendered SAN equals
the given string (decoration-stripped comparison) and apply it. -/
def Chess.moveSan (g : Chess) (s : String) : Option (Chess × Move) :=
  let ms := legalMoves g.pos
  match ms.find? (fun m => sanOf ms m = s) with
  | some m => some (g.applyFound m, m)
  | none => none

/-- chess.js `undo()`: restore the stored previous position. -/
def Chess.undo (g : Chess) : Option (Chess × Move) :=
  match g.hist with
  | [] => none
  | (m, pp) :: t => some (⟨pp, t⟩, m)

/-- Verbose move history, oldest first. -/
def Chess.historyMoves (g : Chess) : List Move :=
  (g.hist.map Prod.fst).reverse

/-- chess.js `history()`: the SAN strings of the played moves, oldest first,
each rendered against the position it was played in. -/
def Chess.historySans (g : Chess) : List String :=
  g.hist.reverse.map (fun e => sanOf (legalMoves e.2) e.1)

/-- All positions that have occurred in the game, including the current one. -/
def Chess.positionTrace (g : Chess) : List Position :=
  g.pos :: g.hist.map Prod.snd

/-- chess.js `isThreefoldRepetition()`: the current position (with move-count
fields dropped from its encoding) has occurred at least three times. -/
def Chess.isThreefoldRepetition (g : Chess) : Bool :=
  decide (3 ≤ (g.positionTrace.filter (fun q => normFen q = normFen g.pos)).length)

def Chess.isDraw (g : Chess) : Bool :=
  decide (100 ≤ g.pos.halfmoves) || isStalemate g.pos || insufficientMaterial g.pos ||
    g.isThreefoldRepetition

def Chess.isGameOver (g : Chess) : Bool :=
  isCheckmate g.pos || isStalemate g.pos || g.isDraw

/-! The `useChessGame` hook state (`src/hooks/useChessGame.ts`).  The JS `Map`
used for `positionCountsRef` is modelled by an insertion-ordered association
list with JS `Map` semantics: `set` updates an existing key in place and
appends a fresh key at the end. -/

def mapGet (m : List (String × Nat)) (k : String) : Option Nat :=
  match m with
  | [] => none
  | (k2, v) :: t => if k2 = k then some v else mapGet t k

def mapSet (m : List (String × Nat)) (k : String) (v : Nat) : List (String × Nat) :=
  match m with
  | [] => [(k, v)]
  | (k2, v2) :: t => if k2 = k then (k, v) :: t else (k2, v2) :: mapSet t k v

structure CapturedPieces where
  byWhite : List PType
  byBlack : List PType
deriving DecidableEq

structure CaptureEvent where
  move : Move
  capturedBy : Color
deriving DecidableEq

structure GameSession where
  game : Chess
  position : String
  history : List Move
  lastMoveSquares : Option ((Int × Int) × (Int × Int))
  captures : CapturedPieces
  lastCapture : Option CaptureEvent
  positionCounts : List (String × Nat)
  repetitionCount : Nat
deriving DecidableEq

def initialSession : GameSession :=
  { game := newChess
    position := fen startPos
    history := []
    lastMoveSquares := none
    captures := ⟨[], []⟩
    lastCapture := none
    positionCounts := [(fen startPos, 1)]
    repetitionCount := 1 }

/-- `commitMove` on a successful move: `g2` is the mutated chess object and
`m` the applied move (the source first mutates `chessRef` via `move`, then
`commitMove` reads the updated fen, history and capture data). -/
def commitMove (s : GameSession) (g2 : Chess) (m : Move)
    (squares : Option ((Int × Int) × (Int × Int))) : GameSession :=
  let f := fen g2.pos
  let next := (mapGet s.positionCounts f).getD 0 + 1
  { game := g2
    position := f
    history := g2.historyMoves
    positionCounts := mapSet s.positionCounts f next
    repetitionCount := next
    lastMoveSquares := some (squares.getD (m.fromSq, m.toSq))
    captures :=
      match m.captured with
      | some cp =>
        match m.color with
        | .w => { s.captures with byWhite := s.captures.byWhite ++ [cp] }
        | .b => { s.captures with byBlack := s.captures.byBlack ++ [cp] }
      | none => s.captures
    lastCapture :=
      match m.captured with
      | some _ => some ⟨m, m.color⟩
      | none => none }

/-- `handleDrop` (`onPieceDrop`): reject when the drop has no target square,
the game is over, or no legal move matches; promotion defaults to queen. -/
def handleDrop (s : GameSession) (sourceSquare : Int × Int)
    (targetSquare : Option (Int × Int)) : Bool × GameSession :=
  match targetSquare with
  | none => (false, s)
  | some dst =>
    if s.game.isGameOver then (false, s)
    else
      match s.game.moveFromTo sourceSquare dst .q with
      | none => (false, s)
      | some (g2, m) => (true, commitMove s g2 m (some (sourceSquare, dst)))

def applyMoveBySan (s : GameSession) (san : String) : Bool × GameSession :=
  if s.game.isGameOver then (false, s)
  else
    match s.game.moveSan san with
    | none => (false, s)
    | some (g2, m) => (true, commitMove s g2 m none)

/-- `rebuildPositionCounts`: replay the SAN history on a fresh `Chess` and
count every full FEN from scratch (a failed replay step leaves the temporary
game unchanged, as a chess.js null move would). -/
def rebuildCounts (g : Chess) : List (String × Nat) :=
  (g.historySans.foldl (fun acc san =>
      let t2 := match acc.1.moveSan san with
        | some (g2, _) => g2
        | none => acc.1
      (t2, mapSet acc.2 (fen t2.pos) ((mapGet acc.2 (fen t2.pos)).getD 0 + 1)))
    (newChess, [(fen startPos, 1)])).2

def undoMove (s : GameSession) : GameSession :=
  match s.game.undo with
  | none => s
  | some (g2, undone) =>
    let counts := rebuildCounts g2
    let currentFen := fen g2.pos
    { game := g2
      position := currentFen
      history := g2.historyMoves
      positionCounts := counts
      repetitionCount := (mapGet counts currentFen).getD 1
      captures :=
        match undone.captured with
        | some _ =>
          match undone.color with
          | .w => { s.captures with byWhite := s.captures.byWhite.dropLast }
          | .b => { s.captures with byBlack := s.captures.byBlack.dropLast }
        | none => s.captures
      lastMoveSquares :=
        match g2.hist with
        | (latest, _) :: _ => some (latest.fromSq, latest.toSq)
        | [] => none
      lastCapture := none }

def resetGame (_ : GameSession) : GameSession := initialSession

structure GameStatus where
  moveCount : Nat
  isCheck : Bool
  isCheckmate : Bool
  isDraw : Bool
  isStalemate : Bool
  isThreefoldRepetition : Bool
  isInsufficientMaterial : Bool
deriving DecidableEq

def statusOf (s : GameSession) : GameStatus :=
  { moveCount := s.history.length
    isCheck := inCheck s.game.pos
    isCheckmate := isCheckmate s.game.pos
    isDraw := s.game.isDraw
    isStalemate := isStalemate s.game.pos
    isThreefoldRepetition := s.game.isThreefoldRepetition
    isInsufficientMaterial := insufficientMaterial s.game.pos }

def getLegalMoves (s : GameSession) : List Move := legalMoves s.game.pos

/-- Apply a list of drops, requiring every one of them to succeed. -/
def playDrops (s : GameSession) : List ((Int × Int) × (Int × Int)) → Option GameSession
  | [] => some s
  | d :: rest =>
    match handleDrop s d.1 (some d.2) with
    | (true, s2) => playDrops s2 rest
    | (false, _) => none

/-- One drop as a step function on `Option GameSession`, for scanning
through the intermediate sessions of a scripted sequence. -/
def dropStep (so : Option GameSession) (d : (Int × Int) × (Int × Int)) :
    Option GameSession :=
  so.bind (fun s =>
    match handleDrop s d.1 (some d.2) with
    | (true, s2) => some s2
    | (false, _) => none)

/-! The bot engine (`src/utils/chessAi.ts`).  The JavaScript numbers flowing
through the search only ever take the values `Infinity`, `-Infinity`, or an
integer, so they are modelled by `Score`. -/

inductive Score where
  | negInf
  | posInf
  | fin (n : Int)
deriving DecidableEq, Repr

def Score.le : Score → Score → Bool
  | .negInf, _ => true
  | _, .posInf => true
  | .posInf, _ => false
  | .fin _, .negInf => false
  | .fin a, .fin b => decide (a ≤ b)

/-- JS `a < b` on the values that occur (note `-Infinity < -Infinity` is false). -/
def Score.lt (a b : Score) : Bool := !Score.le b a

def Score.max (a b : Score) : Score := if Score.le a b then b else a

def Score.min (a b : Score) : Score := if Score.le a b then a else b

def pieceValues : PType → Int
  | .p => 100
  | .n => 320
  | .b => 330
  | .r => 500
  | .q => 900
  | .k => 20000

def pieceSquareTables : PType → List Int
  | .p =>
    [0, 0, 0, 0, 0, 0, 0, 0,
     50, 50, 50, 50, 50, 50, 50, 50,
     10, 10, 20, 30, 30, 20, 10, 10,
     5, 5, 10, 27, 27, 10, 5, 5,
     0, 0, 0, 25, 25, 0, 0, 0,
     5, -5, -10, 0, 0, -10, -5, 5,
     5, 10, 10, -25, -25, 10, 10, 5,
     0, 0, 0, 0, 0, 0, 0, 0]
  | .n =>
    [-50, -40, -30, -30, -30, -30, -40, -50,
     -40, -20, 0, 5, 5, 0, -20, -40,
     -30, 5, 10, 15, 15, 10, 5, -30,
     -30, 0, 15, 20, 20, 15, 0, -30,
     -30, 5, 15, 20, 20, 15, 5, -30,
     -30, 0, 10, 15, 15, 10, 0, -30,
     -40, -20, 0, 0, 0, 0, -20, -40,
     -50, -40, -30, -30, -30, -30, -40, -50]
  | .b =>
    [-20, -10, -10, -10, -10, -10, -10, -20,
     -10, 0, 5, 10, 10, 5, 0, -10,
     -10, 10, 10, 15, 15, 10, 10, -10,
     -10, 0, 15, 20, 20, 15, 0, -10,
     -10, 5, 15, 20, 20, 15, 5, -10,
     -10, 10, 15, 15, 15, 15, 10, -10,
     -10, 5, 0, 0, 0, 0, 5, -10,
     -20, -10, -10, -10, -10, -10, -10, -20]
  | .r =>
    [0, 0, 5, 10, 10, 5, 0, 0,
     -5, 0, 5, 10, 10, 5, 0, -5,
     -5, 0, 5, 10, 10, 5, 0, -5,
     -5, 0, 5, 10, 10, 5, 0, -5,
     -5, 0, 5, 10, 10, 5, 0, -5,
     -5, 0, 5, 10, 10, 5, 0, -5,
     5, 10, 10, 10, 10, 10, 10, 5,
     0, 0, 0, 0, 0, 0, 0, 0]
  | .q =>
    [-20, -10, -10, -5, -5, -10, -10, -20,
     -10, 0, 5, 0, 0, 5, 0, -10,
     -10, 5, 5, 5, 5, 5, 5, -10,
     -5, 0, 5, 5, 5, 5, 0, -5,
     0, 0, 5, 5, 5, 5, 0, -5,
     -10, 5, 5, 5, 5, 5, 5, -10,
     -10, 0, 5, 0, 0, 5, 0, -10,
     -20, -10, -10, -5, -5, -10, -10, -20]
  | .k =>
    [-30, -40, -40, -50, -50, -40, -40, -30,
     -30, -40, -40, -50, -50, -40, -40, -30,
     -30, -40, -40, -50, -50, -40, -40, -30,
     -30, -40, -40, -50, -50, -40, -40, -30,
     -20, -30, -30, -40, -40, -30, -30, -20,
     -10, -20, -20, -20, -20, -20, -20, -10,
     20, 30, 0, 0, 0, 0, 30, 20,
     20, 40, 10, 0, 0, 10, 40, 20]

/-- `reverseTable`: a full reversal of the 64-entry array. -/
def reverseTable (table : List Int) : List Int := table.reverse

def pieceTablesBlack (t : PType) : List Int := reverseTable (pieceSquareTables t)

/-- `evaluateBoard(game, perspective)`.  The nested rank/file loops of the
source are transcribed as folds over `List.range 8`. -/
def evaluateBoard (g : Chess) (perspective : Color) : Score :=
  if isCheckmate g.pos then
    if g.pos.turn = perspective then .negInf else .posInf
  else if g.isDraw then .fin 0
  else
    let base := (List.range 8).foldl (fun acc rank =>
      (List.range 8).foldl (fun acc2 file =>
        match g.pos.board.getD (8 * rank + file) none with
        | none => acc2
        | some sq =>
          let value := pieceValues sq.ptype
          let table := match sq.color with
            | .w => pieceSquareTables sq.ptype
            | .b => pieceTablesBlack sq.ptype
          let positional := table.getD (rank * 8 + file) 0
          let contribution := value + positional
          if sq.color = perspective then acc2 + contribution else acc2 - contribution)
        acc) (0 : Int)
    let mobility : Int := (legalMoves g.pos).length
    let perspectiveMobility := if perspective = g.pos.turn then mobility else 0
    .fin (base + perspectiveMobility * 5)

/-- Accumulator for the maximizing/minimizing loops: once alpha-beta pruning
fires (`stopped`), the remaining moves are skipped, mirroring `break`. -/
structure LoopAcc where
  value : Score
  bound : Score
  stopped : Bool

/-- `minimax(game, depth, alpha, beta, maximizing, perspective)`; the
depth argument is moved first to make the recursion structural. -/
def minimax : Nat → Chess → Score → Score → Bool → Color → Score
  | 0, g, _, _, _, perspective => evaluateBoard g perspective
  | d + 1, g, alpha, beta, maximizing, perspective =>
    if g.isGameOver then evaluateBoard g perspective
    else
      let moves := legalMoves g.pos
      if maximizing then
        (moves.foldl (fun (acc : LoopAcc) m =>
          if acc.stopped then acc
          else
            let value := Score.max acc.value
              (minimax d (g.applyFound m) acc.bound beta false perspective)
            let a := Score.max acc.bound value
            ⟨value, a, Score.le beta a⟩)
          ⟨.negInf, alpha, false⟩).value
      else
        (moves.foldl (fun (acc : LoopAcc) m =>
          if acc.stopped then acc
          else
            let value := Score.min acc.value
              (minimax d (g.applyFound m) alpha acc.bound true perspective)
            let b := Score.min acc.bound value
            ⟨value, b, Score.le b alpha⟩)
          ⟨.posInf, beta, false⟩).value

/-- `selectEngineMove(fen, perspective, depth)`: the source constructs
`game = new Chess(fen)`; the model takes the constructed game directly. -/
def selectEngineMove (game : Chess) (perspective : Color) (depth : Nat) :
    Option Move :=
  let moves := legalMoves game.pos
  if moves.isEmpty then none
  else
    (moves.foldl (fun (acc : Score × Option Move) m =>
      let score := minimax (depth - 1) (game.applyFound m) .negInf .posInf false perspective
      if Score.lt acc.1 score then (score, some m) else acc)
      (.negInf, none)).2

/-- Increment the stored count of key `k` (the `.set(k, (get(k) ?? 0) + 1)`
pattern of `updatePositionCountsAfterMove` and `rebuildPositionCounts`). -/
def bump (m : List (String × Nat)) (k : String) : List (String × Nat) :=
  mapSet m k ((mapGet m k).getD 0 + 1)

/-- The full FENs of all positions of the game in chronological order. -/
def traceFens (g : Chess) : List String := g.positionTrace.reverse.map fen

/-- The position-count map obtained by counting every FEN of the game's
trace in order; this is what the incremental updates maintain. -/
def traceCounts (g : Chess) : List (String × Nat) := (traceFens g).foldl bump []

/-- Well-formedness of the en-passant square: it is empty and the pawn that
just double-pushed stands behind it.  This holds in every reachable
position and rules out degenerate boards on which a pawn could push
forward onto the en-passant square. -/
def EpOk (p : Position) : Prop :=
  ∀ e : Int × Int, p.ep = some e →
    boardGet p.board e.1 e.2 = none ∧
      boardGet p.board (e.1 - dir p.turn) e.2 = some ⟨p.turn.other, .p⟩

def PosOk (p : Position) : Prop := p.board.length = 64 ∧ EpOk p

/-- Games built from the standard start position by applying generated legal
moves — exactly the games the `useChessGame` hook can hold. -/
inductive WfGame : Chess → Prop
  | init : WfGame newChess
  | step (g : Chess) (m : Move) : WfGame g → m ∈ legalMoves g.pos →
      WfGame (g.applyFound m)

/-- The session invariant maintained by the hook: the held game is reachable,
the cached FEN matches it, the incremental position-count map equals the
chronological count of the game's trace, and the cached repetition count is
the current FEN's entry. -/
def SessionOk (s : GameSession) : Prop :=
  WfGame s.game ∧ s.position = fen s.game.pos ∧
    s.positionCounts = traceCounts s.game ∧
    mapGet s.positionCounts s.position = some s.repetitionCount

def c4drops : List ((Int × Int) × (Int × Int)) := [((6, 4), (4, 4)), ((1, 3), (3, 3))]

def c4s : GameSession := (playDrops initialSession c4drops).getD initialSession

def c4s2 : GameSession := (handleDrop c4s (4, 4) (some (3, 3))).2

/-- One square's term of the C5 specification sum: material value plus
positional-table value, signed by whether the piece belongs to the
perspective side. -/
def specContribution (bd : Board) (perspective : Color) (i : Nat) : Int :=
  match bd.getD i none with
  | none => 0
  | some pc =>
    (if pc.color = perspective then 1 else -1) *
      (pieceValues pc.ptype +
        (match pc.color with
          | .w => pieceSquareTables pc.ptype
          | .b => pieceTablesBlack pc.ptype).getD i 0)

/-- The static evaluation written following the specification text of C5:
checkmate gives `-Infinity`/`Infinity` depending on the perspective, draws
give 0, otherwise the signed sum of material plus positional values over
all 64 squares, plus legal-move count times the fixed weight 5 credited
only when the side to move equals the perspective. -/
def specEvaluateBoard (g : Chess) (perspective : Color) : Score :=
  if isCheckmate g.pos then
    if g.pos.turn = perspective then .negInf else .posInf
  else if g.isDraw then .fin 0
  else
    .fin (((List.range 64).map (specContribution g.pos.board perspective)).sum +
      (if g.pos.turn = perspective then ((legalMoves g.pos).length : Int) * 5 else 0))

/-! The matchmaking coordinator (`src/hooks/useMatchmaking.ts`).  Each
operation is modelled as a pure function from the local `MatchmakingState`
and the shared queue to the next state, the next queue, and the broadcast
messages posted on the channel.  Nondeterministic inputs (`generateId()`,
`Date.now()`) are passed as arguments. -/

inductive MatchStatus where
  | idle
  | inviting
  | joining
  | searching
  | matched
  | bot
deriving DecidableEq, Repr

inductive PlayerColor where
  | white
  | black
deriving DecidableEq, Repr

inductive OpponentType where
  | human
  | bot
deriving DecidableEq, Repr

structure MatchmakingState where
  status : MatchStatus
  matchId : Option String
  playerColor : PlayerColor
  opponentType : OpponentType
  opponentId : Option String
  opponentLabel : Option String
  isHost : Bool
deriving DecidableEq, Repr

structure QueueEntry where
  id : String
  createdAt : Int
  label : Option String
deriving DecidableEq, Repr

inductive MatchmakingMessage where
  | matchJoin (matchId guestId : String) (guestLabel : Option String)
  | matchConfirm (matchId hostId guestId : String) (hostLabel : Option String)
  | matchCancel (matchId : String) (reason : Option String)
  | move (matchId san fenStr : String) (timestamp : Int) (senderId : String)
deriving DecidableEq, Repr

def DEFAULT_LABEL : String := "Base player"

def normaliseLabel (value : Option String) : String :=
  let trimmed := (value.getD "").trim
  if trimmed = "" then DEFAULT_LABEL
  else if trimmed.length ≤ 42 then trimmed
  else String.mk (trimmed.toList.take 39) ++ "…"

def QUEUE_TTL_MS : Int := 60000

def pruneQueue (now : Int) (entries : List QueueEntry) : List QueueEntry :=
  entries.filter (fun e => now - e.createdAt < QUEUE_TTL_MS)

/-- `readQueue`: reads the persisted queue, pruning expired entries (and
writing the pruned list back, so the stored queue after a read is the
pruned list as well). -/
def readQueue (now : Int) (stored : List QueueEntry) : List QueueEntry :=
  pruneQueue now stored

def clearQueueEntry (now : Int) (stored : List QueueEntry) (id : String) :
    List QueueEntry :=
  (readQueue now stored).filter (fun e => e.id ≠ id)

def createInitialState : MatchmakingState :=
  { status := .idle
    matchId := none
    playerColor := .white
    opponentType := .bot
    opponentId := none
    opponentLabel := none
    isHost := false }

/-- Result of one matchmaking operation: next local state, next stored
queue, and the broadcast messages posted (in order). -/
structure MMStep where
  state : MatchmakingState
  queue : List QueueEntry
  sent : List MatchmakingMessage
deriving DecidableEq, Repr

def cancelMatchmaking (st : MatchmakingState) (queue : List QueueEntry)
    (now : Int) (reason : Option String) : MMStep :=
  match st.matchId with
  | none => ⟨createInitialState, queue, []⟩
  | some mid =>
    let q1 :=
      if st.status = .searching ∧ st.isHost then clearQueueEntry now queue mid
      else queue
    let sent :=
      if st.status = .inviting ∨ st.status = .joining ∨ st.status = .searching ∨
          st.status = .matched then
        [.matchCancel mid reason]
      else []
    ⟨createInitialState, q1, sent⟩

def startBotMatch (nextMatchId : String) (st : MatchmakingState)
    (queue : List QueueEntry) (now : Int) : MMStep :=
  let pre :=
    if st.status ≠ .idle ∧ st.status ≠ .bot then
      cancelMatchmaking st queue now (some "switch-to-bot")
    else ⟨st, queue, []⟩
  ⟨{ status := .bot
     matchId := some nextMatchId
     playerColor := .white
     opponentType := .bot
     opponentId := some "base-bot"
     opponentLabel := some "Base Bot"
     isHost := true }, pre.queue, pre.sent⟩

def beginQuickMatch (selfId selfLabel : String) (queue : List QueueEntry)
    (now : Int) : MMStep :=
  let queue0 := readQueue now queue
  let others := queue0.filter (fun e => e.id ≠ selfId)
  match others with
  | hostEntry :: _ =>
    ⟨{ status := .joining
       matchId := some hostEntry.id
       playerColor := .black
       opponentType := .human
       opponentId := some hostEntry.id
       opponentLabel := some (normaliseLabel hostEntry.label)
       isHost := false },
      clearQueueEntry now queue0 hostEntry.id,
      [.matchJoin hostEntry.id selfId (some selfLabel)]⟩
  | [] =>
    let trimmed := queue0.filter (fun e => e.id ≠ selfId)
    ⟨{ status := .searching
       matchId := some selfId
       playerColor := .white
       opponentType := .human
       opponentId := none
       opponentLabel := none
       isHost := true },
      trimmed ++ [⟨selfId, now, some selfLabel⟩], []⟩

def createInvite (newMatchId : String) (st : MatchmakingState)
    (queue : List QueueEntry) (now : Int) : MMStep :=
  let pre :=
    if st.status ≠ .idle then cancelMatchmaking st queue now (some "new-invite")
    else ⟨st, queue, []⟩
  ⟨{ status := .inviting
     matchId := some newMatchId
     playerColor := .white
     opponentType := .human
     opponentId := none
     opponentLabel := none
     isHost := true }, pre.queue, pre.sent⟩

def joinInvite (selfId selfLabel : String) (mid : String) (st : MatchmakingState)
    (queue : List QueueEntry) (now : Int) : MMStep :=
  if mid = "" then ⟨st, queue, []⟩
  else
    let pre :=
      if st.status ≠ .idle then cancelMatchmaking st queue now (some "join-invite")
      else ⟨st, queue, []⟩
    ⟨{ status := .joining
       matchId := some mid
       playerColor := .black
       opponentType := .human
       opponentId := none
       opponentLabel := none
       isHost := false }, pre.queue,
      pre.sent ++ [.matchJoin mid selfId (some selfLabel)]⟩

/-- The broadcast-channel message handler.  An incoming `move` message only
invokes the external `onOpponentMove` callback and never touches the
matchmaking state. -/
def handleMessage (selfId selfLabel : String) (st : MatchmakingState)
    (queue : List QueueEntry) (now : Int) (msg : MatchmakingMessage) : MMStep :=
  match msg with
  | .matchJoin mid guestId guestLabel =>
    if st.matchId ≠ some mid then ⟨st, queue, []⟩
    else if ¬st.isHost ∨ st.status = .matched then ⟨st, queue, []⟩
    else
      ⟨{ status := .matched
         matchId := some mid
         playerColor := .white
         opponentType := .human
         opponentId := some guestId
         opponentLabel := some (match guestLabel with
           | some l => if l = "" then DEFAULT_LABEL else normaliseLabel (some l)
           | none => DEFAULT_LABEL)
         isHost := true },
        clearQueueEntry now queue selfId,
        [.matchConfirm mid selfId guestId (some selfLabel)]⟩
  | .matchConfirm mid hostId guestId hostLabel =>
    if guestId ≠ selfId then ⟨st, queue, []⟩
    else
      ⟨{ status := .matched
         matchId := some mid
         playerColor := .black
         opponentType := .human
         opponentId := some hostId
         opponentLabel := some (normaliseLabel hostLabel)
         isHost := false }, queue, []⟩
  | .matchCancel mid _ =>
    if st.matchId ≠ some mid then ⟨st, queue, []⟩
    else ⟨createInitialState, queue, []⟩
  | .move _ _ _ _ _ => ⟨st, queue, []⟩

/-- States of one session reachable from the initial matchmaking state via
the public operations and arbitrary incoming channel messages, with
arbitrary shared-queue contents, timestamps and generated identifiers. -/
inductive MMReachable (selfId selfLabel : String) : MatchmakingState → Prop
  | init : MMReachable selfId selfLabel createInitialState
  | quick (st : MatchmakingState) (queue : List QueueEntry) (now : Int) :
      MMReachable selfId selfLabel st →
      MMReachable selfId selfLabel (beginQuickMatch selfId selfLabel queue now).state
  | botStep (st : MatchmakingState) (mid : String) (queue : List QueueEntry) (now : Int) :
      MMReachable selfId selfLabel st →
      MMReachable selfId selfLabel (startBotMatch mid st queue now).state
  | invite (st : MatchmakingState) (mid : String) (queue : List QueueEntry) (now : Int) :
      MMReachable selfId selfLabel st →
      MMReachable selfId selfLabel (createInvite mid st queue now).state
  | joinStep (st : MatchmakingState) (mid : String) (queue : List QueueEntry) (now : Int) :
      MMReachable selfId selfLabel st →
      MMReachable selfId selfLabel (joinInvite selfId selfLabel mid st queue now).state
  | cancel (st : MatchmakingState) (queue : List QueueEntry) (now : Int)
      (reason : Option String) :
      MMReachable selfId selfLabel st →
      MMReachable selfId selfLabel (cancelMatchmaking st queue now reason).state
  | msg (st : MatchmakingState) (queue : List QueueEntry) (now : Int)
      (m : MatchmakingMessage) :
      MMReachable selfId selfLabel st →
      MMReachable selfId selfLabel (handleMessage selfId selfLabel st queue now m).state

/-! Concrete test inputs used by counterexamples and witnesses. -/

/-- Knight shuffle Nf3 Nf6 Ng1 Ng8 Nf3 Nf6 Ng1 Ng8, as drop coordinates:
after the eighth drop the starting position (white to move, rights intact)
has occurred for the third time. -/
def shuffleDrops : List ((Int × Int) × (Int × Int)) :=
  [((7, 6), (5, 5)), ((0, 6), (2, 5)), ((5, 5), (7, 6)), ((2, 5), (0, 6)),
   ((7, 6), (5, 5)), ((0, 6), (2, 5)), ((5, 5), (7, 6)), ((2, 5), (0, 6))]

/-- The position `8/8/8/8/6p1/5k2/6p1/r6K w - - 0 1`: white is in check from
the rook on a1 and has exactly one legal move (Kh2), after which black
mates in one with Ra1-h1 (the rook is protected by the pawn on g2 and
every flight square of the king is covered). -/
def c3pos : Position :=
  { board := emptyRank ++ emptyRank ++ emptyRank ++ emptyRank ++
      [none, none, none, none, none, none, some ⟨.b, .p⟩, none] ++
      [none, none, none, none, none, some ⟨.b, .k⟩, none, none] ++
      [none, none, none, none, none, none, some ⟨.b, .p⟩, none] ++
      [some ⟨.b, .r⟩, none, none, none, none, none, none, some ⟨.w, .k⟩]
    turn := .w
    castling := ⟨false, false, false, false⟩
    ep := none
    halfmoves := 0
    fullmoves := 1 }

def c3game : Chess := ⟨c3pos, []⟩

/-! Theorems. -/

/-- The list of all piece types. -/
def allPTypes : List PType := [.p, .n, .b, .r, .q, .k]

theorem mem_allPTypes (t : PType) : t ∈ allPTypes := by
  cases t <;> simp [allPTypes]

/-- Combined inductive invariant of the matchmaking state machine. -/
def mmInv (selfId : String) (st : MatchmakingState) : Prop :=
  (st.matchId = none ↔ st.status = .idle) ∧
    ((st.status = .matched ∨ st.status = .bot) → st.opponentId ≠ none) ∧
    (st.status = .searching ∧ st.isHost = true → st.matchId = some selfId)

theorem cancelMatchmaking_state (st : MatchmakingState) (queue : List QueueEntry)
    (now : Int) (reason : Option String) :
    (cancelMatchmaking st queue now reason).state = createInitialState := by
  unfold cancelMatchmaking
  cases st.matchId <;> rfl

theorem mmReachable_inv {selfId selfLabel : String} {st : MatchmakingState}
    (h : MMReachable selfId selfLabel st) : mmInv selfId st := by
  induction h with
  | init => simp [mmInv, createInitialState]
  | quick st queue now _ _ =>
    unfold beginQuickMatch
    simp only [mmInv]
    split <;> simp
  | botStep st mid queue now _ _ =>
    simp [startBotMatch, mmInv]
  | invite st mid queue now _ _ =>
    simp [createInvite, mmInv]
  | joinStep st mid queue now _ ih =>
    unfold joinInvite
    by_cases hm : mid = ""
    · rw [if_pos hm]
      exact ih
    · rw [if_neg hm]
      simp [mmInv]
  | cancel st queue now reason _ _ =>
    rw [cancelMatchmaking_state]
    simp [mmInv, createInitialState]
  | msg st queue now m _ ih =>
    match m with
    | .matchJoin mid guestId guestLabel =>
      simp only [handleMessage]
      split
      · exact ih
      · split
        · exact ih
        · simp [mmInv]
    | .matchConfirm mid hostId guestId hostLabel =>
      simp only [handleMessage]
      split
      · exact ih
      · simp [mmInv]
    | .matchCancel mid reason =>
      simp only [handleMessage]
      split
      · exact ih
      · simp [mmInv, createInitialState]
    | .move mid san fenStr ts sender => exact ih

/-- C9: in every reachable matchmaking state, `matchId` is `null` exactly when
the status is `idle`, and a `matched` or `bot` status implies a non-null
`opponentId`. -/
theorem c9_matchmaking_invariant (selfId selfLabel : String) (st : MatchmakingState)
    (h : MMReachable selfId selfLabel st) :
    (st.matchId = none ↔ st.status = .idle) ∧
      ((st.status = .matched ∨ st.status = .bot) → st.opponentId ≠ none) := by
  have hinv := mmReachable_inv h
  exact ⟨hinv.1, hinv.2.1⟩

/-- Witness for C9 at the matched state a host reaches after a join. -/
theorem c9_witness :
    ((handleMessage "a" "l" (beginQuickMatch "a" "l" [] 0).state [] 0
        (.matchJoin "a" "b" (some "g"))).state.matchId = none ↔
      (handleMessage "a" "l" (beginQuickMatch "a" "l" [] 0).state [] 0
        (.matchJoin "a" "b" (some "g"))).state.status = .idle) ∧
      (((handleMessage "a" "l" (beginQuickMatch "a" "l" [] 0).state [] 0
          (.matchJoin "a" "b" (some "g"))).state.status = .matched ∨
        (handleMessage "a" "l" (beginQuickMatch "a" "l" [] 0).state [] 0
          (.matchJoin "a" "b" (some "g"))).state.status = .bot) →
        (handleMessage "a" "l" (beginQuickMatch "a" "l" [] 0).state [] 0
          (.matchJoin "a" "b" (some "g"))).state.opponentId ≠ none) :=
  c9_matchmaking_invariant "a" "l" _
    (MMReachable.msg _ [] 0 (.matchJoin "a" "b" (some "g"))
      (MMReachable.quick createInitialState [] 0 MMReachable.init))

/-- C8 counterexample: the `bot` status is not `idle`, is reachable, and yet
`cancelMatchmaking` broadcasts no `match-cancel` message from it, refuting
"broadcasts whenever the status is not idle". -/
theorem c8_counterexample :
    (startBotMatch "m1" createInitialState [] 0).state.status ≠ .idle ∧
      MMReachable "a" "l" (startBotMatch "m1" createInitialState [] 0).state ∧
      (cancelMatchmaking (startBotMatch "m1" createInitialState [] 0).state [] 0 none).sent
        = [] :=
  ⟨by decide, MMReachable.botStep createInitialState "m1" [] 0 MMReachable.init, by decide⟩

/-- C8 (amended): from every reachable state, `cancelMatchmaking` resets the
local state to the idle initial state; it broadcasts a `match-cancel`
message exactly when the status is `inviting`, `joining`, `searching` or
`matched` (so not for `bot`, contrary to "whenever the status is not
idle"); and when the session is hosting a `searching` entry it removes its
own entry from the shared queue. -/
theorem c8_cancel_amended (selfId selfLabel : String) (st : MatchmakingState)
    (h : MMReachable selfId selfLabel st) (queue : List QueueEntry) (now : Int)
    (reason : Option String) :
    (cancelMatchmaking st queue now reason).state = createInitialState ∧
      ((cancelMatchmaking st queue now reason).sent ≠ [] ↔
        (st.status = .inviting ∨ st.status = .joining ∨ st.status = .searching ∨
          st.status = .matched)) ∧
      (st.status = .searching → st.isHost = true →
        ∀ e ∈ (cancelMatchmaking st queue now reason).queue, e.id ≠ selfId) := by
  obtain ⟨inv1, _, inv3⟩ := mmReachable_inv h
  refine ⟨cancelMatchmaking_state st queue now reason, ?_, ?_⟩
  · unfold cancelMatchmaking
    cases hmid : st.matchId with
    | none =>
      have hidle := inv1.mp hmid
      simp [hidle]
    | some mid =>
      by_cases hc : st.status = .inviting ∨ st.status = .joining ∨
          st.status = .searching ∨ st.status = .matched <;> simp [hc]
  · intro hs hh e he
    have hmid := inv3 ⟨hs, hh⟩
    rw [cancelMatchmaking, hmid] at he
    simp only [hs, hh, and_self, if_true, if_pos] at he
    simp only [clearQueueEntry, readQueue, List.mem_filter] at he
    simpa using he.2

/-- Witness for C8 at the searching state reached by a first quick-match. -/
theorem c8_witness :
    (cancelMatchmaking (beginQuickMatch "a" "l" [] 0).state [] 5 none).state
        = createInitialState ∧
      ((cancelMatchmaking (beginQuickMatch "a" "l" [] 0).state [] 5 none).sent ≠ [] ↔
        ((beginQuickMatch "a" "l" [] 0).state.status = .inviting ∨
          (beginQuickMatch "a" "l" [] 0).state.status = .joining ∨
          (beginQuickMatch "a" "l" [] 0).state.status = .searching ∨
          (beginQuickMatch "a" "l" [] 0).state.status = .matched)) ∧
      ((beginQuickMatch "a" "l" [] 0).state.status = .searching →
        (beginQuickMatch "a" "l" [] 0).state.isHost = true →
        ∀ e ∈ (cancelMatchmaking (beginQuickMatch "a" "l" [] 0).state [] 5 none).queue,
          e.id ≠ "a") :=
  c8_cancel_amended "a" "l" _ (MMReachable.quick createInitialState [] 0 MMReachable.init)
    [] 5 none

/-- C6 counterexample: at the queen table, rank 3, file 0, the black table
entry is the 180-degree rotation value (-5), not the vertical-mirror value
(0) the claim asserts. -/
theorem c6_counterexample :
    ¬((pieceTablesBlack .q).getD (3 * 8 + 0) 0 =
      (pieceSquareTables .q).getD ((7 - 3) * 8 + 0) 0) := by
  decide

/-- C6 (amended): `reverseTable` reverses the whole 64-entry array, so the
black table is the white table mirrored in rank AND file (a 180-degree
rotation): `blackTable[p][r*8+f] = whiteTable[p][(7-r)*8+(7-f)]`. -/
theorem c6_tables_amended (t : PType) (r f : Nat) (hr : r < 8) (hf : f < 8) :
    (pieceTablesBlack t).getD (r * 8 + f) 0 =
      (pieceSquareTables t).getD ((7 - r) * 8 + (7 - f)) 0 := by
  have H : ∀ t2 ∈ allPTypes, ∀ r2 ∈ List.range 8, ∀ f2 ∈ List.range 8,
      (pieceTablesBlack t2).getD (r2 * 8 + f2) 0 =
        (pieceSquareTables t2).getD ((7 - r2) * 8 + (7 - f2)) 0 := by decide
  exact H t (mem_allPTypes t) r (List.mem_range.mpr hr) f (List.mem_range.mpr hf)

/-- Witness for C6 at the queen table, rank 3, file 0. -/
theorem c6_witness :
    (3 : Nat) < 8 ∧ (0 : Nat) < 8 ∧
      (pieceTablesBlack .q).getD (3 * 8 + 0) 0 =
        (pieceSquareTables .q).getD ((7 - 3) * 8 + (7 - 0)) 0 :=
  ⟨by decide, by decide, c6_tables_amended .q 3 0 (by decide) (by decide)⟩

/-- C10: undoing with an empty move history is a complete no-op on the
session state (and, being a total function, raises no error). -/
theorem c10_undo_empty_noop (s : GameSession) (h : s.game.hist = []) :
    undoMove s = s := by
  simp [undoMove, Chess.undo, h]

/-- Witness for C10 at the freshly created session. -/
theorem c10_witness :
    initialSession.game.hist = [] ∧ undoMove initialSession = initialSession :=
  ⟨rfl, c10_undo_empty_noop initialSession rfl⟩

/-- C7: session A quick-matches on an empty queue (enqueueing itself, status
`searching`, hosting as white); session B quick-matches while A's entry is
unexpired, joining as black and sending `match-join`; A handles that
message by becoming `matched` as white with opponent B and sending
`match-confirm`; B handles the confirmation by becoming `matched` as black
with opponent A. -/
theorem c7_quickmatch_pairing (idA idB lA lB : String) (t1 t2 t3 t4 : Int)
    (qA qB : List QueueEntry) (hAB : idA ≠ idB) (hfresh : t2 - t1 < QUEUE_TTL_MS) :
    (beginQuickMatch idA lA [] t1).state.status = .searching ∧
      (beginQuickMatch idA lA [] t1).state.playerColor = .white ∧
      (beginQuickMatch idA lA [] t1).state.isHost = true ∧
      (beginQuickMatch idB lB (beginQuickMatch idA lA [] t1).queue t2).sent =
        [.matchJoin idA idB (some lB)] ∧
      (handleMessage idA lA (beginQuickMatch idA lA [] t1).state qA t3
          (.matchJoin idA idB (some lB))).sent =
        [.matchConfirm idA idA idB (some lA)] ∧
      (handleMessage idA lA (beginQuickMatch idA lA [] t1).state qA t3
          (.matchJoin idA idB (some lB))).state.status = .matched ∧
      (handleMessage idA lA (beginQuickMatch idA lA [] t1).state qA t3
          (.matchJoin idA idB (some lB))).state.playerColor = .white ∧
      (handleMessage idA lA (beginQuickMatch idA lA [] t1).state qA t3
          (.matchJoin idA idB (some lB))).state.opponentId = some idB ∧
      (handleMessage idB lB
          (beginQuickMatch idB lB (beginQuickMatch idA lA [] t1).queue t2).state qB t4
          (.matchConfirm idA idA idB (some lA))).state.status = .matched ∧
      (handleMessage idB lB
          (beginQuickMatch idB lB (beginQuickMatch idA lA [] t1).queue t2).state qB t4
          (.matchConfirm idA idA idB (some lA))).state.playerColor = .black ∧
      (handleMessage idB lB
          (beginQuickMatch idB lB (beginQuickMatch idA lA [] t1).queue t2).state qB t4
          (.matchConfirm idA idA idB (some lA))).state.opponentId = some idA := by
  have hA1 : beginQuickMatch idA lA [] t1 =
      ⟨{ status := .searching, matchId := some idA, playerColor := .white,
         opponentType := .human, opponentId := none, opponentLabel := none,
         isHost := true }, [⟨idA, t1, some lA⟩], []⟩ := by
    simp [beginQuickMatch, readQueue, pruneQueue]
  have hB1 : beginQuickMatch idB lB (beginQuickMatch idA lA [] t1).queue t2 =
      ⟨{ status := .joining, matchId := some idA, playerColor := .black,
         opponentType := .human, opponentId := some idA,
         opponentLabel := some (normaliseLabel (some lA)), isHost := false },
        [], [.matchJoin idA idB (some lB)]⟩ := by
    rw [hA1]
    simp [beginQuickMatch, readQueue, pruneQueue, clearQueueEntry, hfresh,
      List.filter_cons, hAB]
  have hA2 : handleMessage idA lA (beginQuickMatch idA lA [] t1).state qA t3
      (.matchJoin idA idB (some lB)) =
      ⟨{ status := .matched, matchId := some idA, playerColor := .white,
         opponentType := .human, opponentId := some idB,
         opponentLabel := some (if lB = "" then DEFAULT_LABEL
           else normaliseLabel (some lB)),
         isHost := true }, clearQueueEntry t3 qA idA,
        [.matchConfirm idA idA idB (some lA)]⟩ := by
    rw [hA1]
    simp [handleMessage]
  have hB2 : handleMessage idB lB
      (beginQuickMatch idB lB (beginQuickMatch idA lA [] t1).queue t2).state qB t4
      (.matchConfirm idA idA idB (some lA)) =
      ⟨{ status := .matched, matchId := some idA, playerColor := .black,
         opponentType := .human, opponentId := some idA,
         opponentLabel := some (normaliseLabel (some lA)), isHost := false },
        qB, []⟩ := by
    rw [hB1]
    simp [handleMessage]
  rw [hA2, hB2, hB1, hA1]
  simp

/-- Witness for C7 with concrete session identifiers and timestamps. -/
theorem c7_witness :
    (beginQuickMatch "a" "lA" [] 0).state.status = .searching ∧
      (beginQuickMatch "a" "lA" [] 0).state.playerColor = .white ∧
      (beginQuickMatch "a" "lA" [] 0).state.isHost = true ∧
      (beginQuickMatch "b" "lB" (beginQuickMatch "a" "lA" [] 0).queue 1).sent =
        [.matchJoin "a" "b" (some "lB")] ∧
      (handleMessage "a" "lA" (beginQuickMatch "a" "lA" [] 0).state [] 2
          (.matchJoin "a" "b" (some "lB"))).sent =
        [.matchConfirm "a" "a" "b" (some "lA")] ∧
      (handleMessage "a" "lA" (beginQuickMatch "a" "lA" [] 0).state [] 2
          (.matchJoin "a" "b" (some "lB"))).state.status = .matched ∧
      (handleMessage "a" "lA" (beginQuickMatch "a" "lA" [] 0).state [] 2
          (.matchJoin "a" "b" (some "lB"))).state.playerColor = .white ∧
      (handleMessage "a" "lA" (beginQuickMatch "a" "lA" [] 0).state [] 2
          (.matchJoin "a" "b" (some "lB"))).state.opponentId = some "b" ∧
      (handleMessage "b" "lB"
          (beginQuickMatch "b" "lB" (beginQuickMatch "a" "lA" [] 0).queue 1).state [] 3
          (.matchConfirm "a" "a" "b" (some "lA"))).state.status = .matched ∧
      (handleMessage "b" "lB"
          (beginQuickMatch "b" "lB" (beginQuickMatch "a" "lA" [] 0).queue 1).state [] 3
          (.matchConfirm "a" "a" "b" (some "lA"))).state.playerColor = .black ∧
      (handleMessage "b" "lB"
          (beginQuickMatch "b" "lB" (beginQuickMatch "a" "lA" [] 0).queue 1).state [] 3
          (.matchConfirm "a" "a" "b" (some "lA"))).state.opponentId = some "a" :=
  c7_quickmatch_pairing "a" "b" "lA" "lB" 0 1 2 3 [] [] (by decide) (by decide)

/-- C2: when the game is already over, or when no legal move connects the
origin and destination squares, `handleDrop` reports failure and leaves
every component of the session untouched (it is a total function, so no
exception can be raised). -/
theorem c2_illegal_drop_rejected (s : GameSession) (src dst : Int × Int)
    (h : s.game.isGameOver = true ∨
      ∀ m ∈ legalMoves s.game.pos, ¬(m.fromSq = src ∧ m.toSq = dst)) :
    handleDrop s src (some dst) = (false, s) := by
  rcases h with h | h
  · simp [handleDrop, h]
  · have hfind : s.game.moveFromTo src dst PType.q = none := by
      unfold Chess.moveFromTo
      have hnone : (legalMoves s.game.pos).find? (fun m =>
          decide (m.fromSq = src) && decide (m.toSq = dst) &&
            (decide (m.promotion = none) || decide (m.promotion = some .q))) = none := by
        rw [List.find?_eq_none]
        intro m hm
        simp only [Bool.and_eq_true, Bool.or_eq_true, decide_eq_true_eq]
        rintro ⟨⟨h1, h2⟩, _⟩
        exact h m hm ⟨h1, h2⟩
      rw [hnone]
    by_cases hg : s.game.isGameOver = true
    · simp [handleDrop, hg]
    · simp [handleDrop, hg, hfind]

/-- Witness for C2: dropping the e2 pawn on e5 from the start position. -/
theorem c2_witness :
    (∀ m ∈ legalMoves initialSession.game.pos,
      ¬(m.fromSq = ((6 : Int), (4 : Int)) ∧ m.toSq = ((3 : Int), (4 : Int)))) ∧
      handleDrop initialSession (6, 4) (some (3, 4)) = (false, initialSession) :=
  ⟨by decide, c2_illegal_drop_rejected initialSession (6, 4) (3, 4) (Or.inr (by decide))⟩

theorem score_lt_negInf_false_iff (x : Score) :
    Score.lt .negInf x = false ↔ x = .negInf := by
  cases x <;> simp [Score.lt, Score.le]

theorem bestFold_ne_none (l : List Move) (f : Move → Score) (b : Score) (m0 : Move) :
    (l.foldl (fun acc m => if Score.lt acc.1 (f m) then (f m, some m) else acc)
      (b, some m0)).2 ≠ none := by
  induction l generalizing b m0 with
  | nil => simp
  | cons m t ih =>
    simp only [List.foldl_cons]
    by_cases hlt : Score.lt b (f m) = true
    · rw [if_pos hlt]
      exact ih (f m) m
    · rw [if_neg hlt]
      exact ih b m0

theorem bestFold_none_iff (l : List Move) (f : Move → Score) (b : Score) :
    (l.foldl (fun acc m => if Score.lt acc.1 (f m) then (f m, some m) else acc)
      (b, none)).2 = none ↔ ∀ m ∈ l, Score.lt b (f m) = false := by
  induction l generalizing b with
  | nil => simp
  | cons m t ih =>
    simp only [List.foldl_cons]
    by_cases hlt : Score.lt b (f m) = true
    · rw [if_pos hlt]
      constructor
      · intro hc
        exact absurd hc (bestFold_ne_none t f (f m) m)
      · intro hall
        have := hall m (List.mem_cons_self m t)
        rw [hlt] at this
        cases this
    · rw [if_neg hlt]
      rw [ih b]
      constructor
      · intro hall
        intro m2 hm2
        rcases List.mem_cons.mp hm2 with rfl | hm2
        · exact Bool.eq_false_iff.mpr hlt
        · exact hall m2 hm2
      · intro hall m2 hm2
        exact hall m2 (List.mem_cons_of_mem m hm2)

set_option maxRecDepth 100000 in
/-- C3 counterexample: in the position `8/8/8/8/6p1/5k2/6p1/r6K w - - 0 1`
white has exactly one legal move (Kh2, a forced reply to the rook check),
after which black mates in one; at depth 2 every root score is `-Infinity`,
`score > bestScore` never fires, and the engine returns `null` even though a
legal move exists. -/
theorem c3_counterexample :
    legalMoves c3game.pos ≠ [] ∧ (legalMoves c3game.pos).length = 1 ∧
      selectEngineMove c3game .w 2 = none :=
  ⟨by decide, by decide, by decide⟩

/-- C3 (amended): for search depths in the configured range (`depth ≥ 1`),
`selectEngineMove` returns `null` iff the position has no legal moves OR
every root move scores `-Infinity` (a forced loss within the horizon);
consequently, with exactly one legal move it returns that move only when
the move's score is not `-Infinity`. -/
theorem c3_select_move_amended (g : Chess) (perspective : Color) (depth : Nat)
    (_hd : 1 ≤ depth) :
    (selectEngineMove g perspective depth = none ↔
      (legalMoves g.pos = [] ∨ ∀ m ∈ legalMoves g.pos,
        minimax (depth - 1) (g.applyFound m) .negInf .posInf false perspective
          = .negInf)) ∧
      (∀ m : Move, legalMoves g.pos = [m] →
        minimax (depth - 1) (g.applyFound m) .negInf .posInf false perspective
          ≠ .negInf →
        selectEngineMove g perspective depth = some m) := by
  constructor
  · unfold selectEngineMove
    by_cases he : (legalMoves g.pos).isEmpty
    · rw [if_pos he]
      simp [List.isEmpty_iff.mp he]
    · rw [if_neg he]
      have hfold := bestFold_none_iff (legalMoves g.pos)
        (fun m => minimax (depth - 1) (g.applyFound m) .negInf .posInf false perspective)
        .negInf
      rw [hfold]
      have hne : ¬legalMoves g.pos = [] := fun hc => he (by simp [hc])
      simp only [hne, false_or]
      constructor
      · intro hall m hm
        exact (score_lt_negInf_false_iff _).mp (hall m hm)
      · intro hall m hm
        exact (score_lt_negInf_false_iff _).mpr (hall m hm)
  · intro m hm hscore
    unfold selectEngineMove
    rw [hm]
    have hlt : Score.lt .negInf
        (minimax (depth - 1) (g.applyFound m) .negInf .posInf false perspective) = true := by
      rcases hx : minimax (depth - 1) (g.applyFound m) .negInf .posInf false perspective with
        _ | _ | n
      · exact absurd hx hscore
      · rfl
      · rfl
    simp only [List.isEmpty_cons, Bool.false_eq_true, if_false, List.foldl_cons,
      List.foldl_nil]
    rw [if_pos hlt]

set_option maxRecDepth 400000 in
/-- C1 counterexample: after the scripted knight shuffle the status flag
`isThreefoldRepetition` is true, yet the repetition multiset maintained by
the hook (`positionCountsRef`) holds only counts of 1 — it keys on the full
FEN including the half-move clock and full-move number, so no entry (and in
particular no canonical encoding of the current position) ever reaches a
count of 3. -/
theorem c1_counterexample :
    (playDrops initialSession shuffleDrops).map (fun s =>
      ((statusOf s).isThreefoldRepetition, mapGet s.positionCounts s.position,
        s.positionCounts.all (fun kv => kv.2 = 1))) = some (true, some 1, true) := by
  decide

set_option maxRecDepth 400000 in
/-- C1 (amended): `queryStatus().inThreefoldRepetition` is true iff the chess
library's internal normalized position count (FEN with the half-move clock
and full-move number dropped) reports at least 3 occurrences of the current
position — this count is maintained by the library, not by the hook's own
`positionCounts` multiset, which keys on the full FEN and never reaches 3
under a repetition shuffle.  The flag still becomes true exactly at the
third occurrence of the scripted shuffle position, not before. -/
theorem c1_threefold_amended :
    (∀ s : GameSession, (statusOf s).isThreefoldRepetition = true ↔
      3 ≤ ((s.game.positionTrace.filter
        (fun q => normFen q = normFen s.game.pos)).length)) ∧
      (List.scanl dropStep (some initialSession) shuffleDrops).map
        (Option.map (fun s => (statusOf s).isThreefoldRepetition)) =
      [some false, some false, some false, some false, some false, some false,
        some false, some false, some true] := by
  constructor
  · intro s
    simp [statusOf, Chess.isThreefoldRepetition]
  · decide

theorem foldl_add_int (l : List Nat) (h : Nat → Int) (a : Int) :
    l.foldl (fun acc x => acc + h x) a = a + (l.map h).sum := by
  induction l generalizing a with
  | nil => simp
  | cons x t ih =>
    simp only [List.foldl_cons, List.map_cons, List.sum_cons]
    rw [ih]
    ring

theorem sum_range64_split (h : Nat → Int) :
    ((List.range 64).map h).sum =
      ((List.range 8).map (fun rank =>
        ((List.range 8).map (fun file => h (8 * rank + file))).sum)).sum := by
  simp [List.range_succ]
  ring

theorem inner_body_eq (bd : Board) (perspective : Color) (rank file : Nat) (acc2 : Int) :
    (match bd.getD (8 * rank + file) none with
      | none => acc2
      | some sq =>
        if sq.color = perspective then
          acc2 +
            (pieceValues sq.ptype +
              (match sq.color with
                | Color.w => pieceSquareTables sq.ptype
                | Color.b => pieceTablesBlack sq.ptype).getD (rank * 8 + file) 0)
        else
          acc2 -
            (pieceValues sq.ptype +
              (match sq.color with
                | Color.w => pieceSquareTables sq.ptype
                | Color.b => pieceTablesBlack sq.ptype).getD (rank * 8 + file) 0)) =
      acc2 + specContribution bd perspective (8 * rank + file) := by
  have hidx : rank * 8 + file = 8 * rank + file := by ring
  rcases h : bd.getD (8 * rank + file) none with _ | pc
  · simp only [specContribution, h]
    ring
  · rw [hidx]
    simp only [specContribution, h]
    by_cases hc : pc.color = perspective
    · simp only [hc, if_true, if_pos]
      ring
    · rw [if_neg hc, if_neg hc]
      ring

/-- C5: the static evaluation is exactly the specification formula: `-∞` at a
checkmate with the perspective to move and `+∞` at a checkmate with the
opponent to move, 0 when drawn, and otherwise the signed material plus
positional-table sum over all pieces with the mobility bonus (legal-move
count times 5) credited only when the side to move is the perspective. -/
theorem c5_evaluate_board_spec (g : Chess) (perspective : Color) :
    evaluateBoard g perspective = specEvaluateBoard g perspective := by
  unfold evaluateBoard specEvaluateBoard
  by_cases h1 : isCheckmate g.pos = true
  · simp [h1]
  · by_cases h2 : g.isDraw = true
    · simp [h1, h2]
    · simp only [h1, h2, Bool.false_eq_true, if_false]
      congr 1
      rw [sum_range64_split]
      have houter : ∀ acc : Int, ∀ rank ∈ List.range 8,
          (List.foldl
            (fun acc2 file =>
              match List.getD g.pos.board (8 * rank + file) none with
              | none => acc2
              | some sq =>
                if sq.color = perspective then
                  acc2 +
                    (pieceValues sq.ptype +
                      (match sq.color with
                        | Color.w => pieceSquareTables sq.ptype
                        | Color.b => pieceTablesBlack sq.ptype).getD (rank * 8 + file) 0)
                else
                  acc2 -
                    (pieceValues sq.ptype +
                      (match sq.color with
                        | Color.w => pieceSquareTables sq.ptype
                        | Color.b => pieceTablesBlack sq.ptype).getD (rank * 8 + file) 0))
            acc (List.range 8)) =
          acc + ((List.range 8).map
            (fun file => specContribution g.pos.board perspective (8 * rank + file))).sum := by
        intro acc rank _
        rw [List.foldl_ext _ (fun acc2 file =>
            acc2 + specContribution g.pos.board perspective (8 * rank + file)) acc
          (fun a b _ => inner_body_eq g.pos.board perspective rank b a)]
        exact foldl_add_int _ _ acc
      rw [List.foldl_ext _ (fun acc rank =>
          acc + ((List.range 8).map
            (fun file => specContribution g.pos.board perspective (8 * rank + file))).sum)
          0 houter]
      rw [foldl_add_int]
      have hmob : (if perspective = g.pos.turn then ((legalMoves g.pos).length : Int) else 0) * 5
          = if g.pos.turn = perspective then ((legalMoves g.pos).length : Int) * 5 else 0 := by
        by_cases hc : perspective = g.pos.turn
        · rw [if_pos hc, if_pos hc.symm]
        · rw [if_neg hc, if_neg (fun hh => hc hh.symm)]
          ring
      rw [hmob]
      ring

/-- Witness for C3 with the start position at depth 1. -/
theorem c3_witness :
    1 ≤ 1 ∧
      ((selectEngineMove newChess .w 1 = none ↔
        (legalMoves newChess.pos = [] ∨ ∀ m ∈ legalMoves newChess.pos,
          minimax (1 - 1) (newChess.applyFound m) .negInf .posInf false .w = .negInf)) ∧
        (∀ m : Move, legalMoves newChess.pos = [m] →
          minimax (1 - 1) (newChess.applyFound m) .negInf .posInf false .w ≠ .negInf →
          selectEngineMove newChess .w 1 = some m)) :=
  ⟨by decide, c3_select_move_amended newChess .w 1 (by decide)⟩


theorem fileChar_inj {a b : Int} (ha0 : 0 ≤ a) (ha : a < 8) (hb0 : 0 ≤ b) (hb : b < 8)
    (h : fileChar a = fileChar b) : a = b := by
  interval_cases a <;> interval_cases b <;> simp_all [fileChar]

theorem rankChar_inj {a b : Int} (ha0 : 0 ≤ a) (ha : a < 8) (hb0 : 0 ≤ b) (hb : b < 8)
    (h : rankChar a = rankChar b) : a = b := by
  interval_cases a <;> interval_cases b <;> simp_all [rankChar]

theorem fileChar_ne_rankChar {a b : Int} (ha0 : 0 ≤ a) (ha : a < 8) (hb0 : 0 ≤ b) (hb : b < 8) :
    fileChar a ≠ rankChar b := by
  interval_cases a <;> interval_cases b <;> simp [fileChar, rankChar]

theorem fileChar_ne_upper {a : Int} (ha0 : 0 ≤ a) (ha : a < 8) (t : PType) :
    fileChar a ≠ pieceCharUpper t := by
  interval_cases a <;> cases t <;> simp [fileChar, pieceCharUpper]

theorem fileChar_ne_O {a : Int} (ha0 : 0 ≤ a) (ha : a < 8) : fileChar a ≠ 'O' := by
  interval_cases a <;> simp [fileChar]

theorem rankChar_ne_x {b : Int} (hb0 : 0 ≤ b) (hb : b < 8) : rankChar b ≠ 'x' := by
  interval_cases b <;> simp [rankChar]

theorem pieceCharUpper_inj {s t : PType} (h : pieceCharUpper s = pieceCharUpper t) : s = t := by
  cases s <;> cases t <;> simp_all [pieceCharUpper]

theorem pieceCharUpper_ne_O (t : PType) : pieceCharUpper t ≠ 'O' := by
  cases t <;> simp [pieceCharUpper]

theorem squareChars_inj {s1 s2 : Int × Int} (h1r0 : 0 ≤ s1.1) (h1r : s1.1 < 8)
    (h1f0 : 0 ≤ s1.2) (h1f : s1.2 < 8) (h2r0 : 0 ≤ s2.1) (h2r : s2.1 < 8)
    (h2f0 : 0 ≤ s2.2) (h2f : s2.2 < 8) (h : squareChars s1 = squareChars s2) : s1 = s2 := by
  obtain ⟨hf, hr⟩ : fileChar s1.2 = fileChar s2.2 ∧ rankChar s1.1 = rankChar s2.1 := by
    simpa [squareChars] using h
  exact Prod.ext (rankChar_inj h1r0 h1r h2r0 h2r hr) (fileChar_inj h1f0 h1f h2f0 h2f hf)

theorem mapGet_mapSet_self (m : List (String × Nat)) (k : String) (v : Nat) :
    mapGet (mapSet m k v) k = some v := by
  induction m with
  | nil => simp [mapSet, mapGet]
  | cons kv t ih =>
    by_cases hk : kv.1 = k
    · simp [mapSet, mapGet, hk]
    · simp [mapSet, mapGet, hk, ih]

theorem find?_eq_of_unique {α : Type} (l : List α) (pr : α → Bool) (m : α)
    (hm : m ∈ l) (hpm : pr m = true) (huniq : ∀ x ∈ l, pr x = true → x = m) :
    l.find? pr = some m := by
  induction l with
  | nil => cases hm
  | cons a t ih =>
    by_cases hpa : pr a = true
    · rw [List.find?_cons_of_pos _ hpa]
      rw [huniq a (List.mem_cons_self a t) hpa]
    · rw [List.find?_cons_of_neg _ (by simp [hpa])]
      rcases List.mem_cons.mp hm with rfl | hmt
      · exact absurd hpm hpa
      · exact ih hmt (fun x hx hpx => huniq x (List.mem_cons_of_mem a hx) hpx)

theorem toNat_idx_inj {r1 f1 r2 f2 : Int} (h1 : inBounds r1 f1) (h2 : inBounds r2 f2)
    (hne : (r1, f1) ≠ (r2, f2)) : (8 * r1 + f1).toNat ≠ (8 * r2 + f2).toNat := by
  obtain ⟨a1, b1, c1, d1⟩ := h1
  obtain ⟨a2, b2, c2, d2⟩ := h2
  intro hc
  apply hne
  have : r1 = r2 ∧ f1 = f2 := by omega
  exact Prod.ext this.1 this.2

theorem boardGet_boardSet_self {bd : Board} (hlen : bd.length = 64) {r f : Int}
    (hb : inBounds r f) (v : Option Piece) : boardGet (boardSet bd r f v) r f = v := by
  obtain ⟨a, b, c, d⟩ := hb
  have hidx : (8 * r + f).toNat < bd.length := by omega
  simp only [boardGet, boardSet, List.getD_eq_getElem?_getD,
    List.getElem?_set_self hidx, Option.getD_some]
  rw [if_pos (show inBounds r f from ⟨a, b, c, d⟩)]

theorem boardGet_boardSet_ne {bd : Board} {r f r2 f2 : Int} (hb : inBounds r f)
    (hne : (r, f) ≠ (r2, f2)) (v : Option Piece) :
    boardGet (boardSet bd r f v) r2 f2 = boardGet bd r2 f2 := by
  by_cases hb2 : inBounds r2 f2
  · simp only [boardGet, boardSet, if_pos hb2, List.getD_eq_getElem?_getD,
      List.getElem?_set_ne (toNat_idx_inj hb hb2 hne)]
  · simp only [boardGet, if_neg hb2]

theorem boardSet_length {bd : Board} (r f : Int) (v : Option Piece) :
    (boardSet bd r f v).length = bd.length := by
  simp [boardSet]



theorem mkMove_fromSq (p : Position) (s d : Int × Int) (pr : Option PType) (ck : CastleKind) :
    (mkMove p s d pr ck).fromSq = s := rfl

theorem mkMove_toSq (p : Position) (s d : Int × Int) (pr : Option PType) (ck : CastleKind) :
    (mkMove p s d pr ck).toSq = d := rfl

theorem mkMove_promotion (p : Position) (s d : Int × Int) (pr : Option PType) (ck : CastleKind) :
    (mkMove p s d pr ck).promotion = pr := rfl

theorem mkMove_castle (p : Position) (s d : Int × Int) (pr : Option PType) (ck : CastleKind) :
    (mkMove p s d pr ck).castle = ck := rfl

theorem mkMove_color (p : Position) (s d : Int × Int) (pr : Option PType) (ck : CastleKind) :
    (mkMove p s d pr ck).color = p.turn := rfl

/-- The mkMove form is stable under reprojection. -/
theorem mkMove_form (p : Position) (s d : Int × Int) (pr : Option PType) (ck : CastleKind) :
    mkMove p s d pr ck =
      mkMove p (mkMove p s d pr ck).fromSq (mkMove p s d pr ck).toSq
        (mkMove p s d pr ck).promotion (mkMove p s d pr ck).castle := rfl

theorem mem_leaperMoves {p : Position} {src : Int × Int} {offs : List (Int × Int)} {m : Move}
    (h : m ∈ leaperMoves p src offs) :
    ∃ dst : Int × Int, inBounds dst.1 dst.2 ∧ m = mkMove p src dst none .none := by
  obtain ⟨o, -, ho⟩ := List.mem_filterMap.mp h
  by_cases hb : inBounds (src.1 + o.1) (src.2 + o.2)
  · rw [if_pos hb] at ho
    rcases hocc : boardGet p.board (src.1 + o.1) (src.2 + o.2) with _ | pc <;>
      simp only [hocc] at ho
    · exact ⟨(src.1 + o.1, src.2 + o.2), hb, (Option.some_inj.mp ho).symm⟩
    · by_cases hc : pc.color = p.turn
      · rw [if_pos hc] at ho
        cases ho
      · rw [if_neg hc] at ho
        exact ⟨(src.1 + o.1, src.2 + o.2), hb, (Option.some_inj.mp ho).symm⟩
  · rw [if_neg hb] at ho
    cases ho

theorem mem_rayWalk {p : Position} {src : Int × Int} {d : Int × Int} {m : Move} :
    ∀ (fuel : Nat) (cur : Int × Int), m ∈ rayWalk p src d fuel cur →
    ∃ dst : Int × Int, inBounds dst.1 dst.2 ∧ m = mkMove p src dst none .none := by
  intro fuel
  induction fuel with
  | zero => intro cur h; cases h
  | succ n ih =>
    intro cur h
    unfold rayWalk at h
    by_cases hb : inBounds cur.1 cur.2
    · rw [if_pos hb] at h
      rcases hocc : boardGet p.board cur.1 cur.2 with _ | pc <;> simp only [hocc] at h
      · rcases List.mem_cons.mp h with rfl | h2
        · exact ⟨cur, hb, rfl⟩
        · exact ih _ h2
      · by_cases hc : pc.color = p.turn
        · rw [if_pos hc] at h
          cases h
        · rw [if_neg hc] at h
          rcases List.mem_cons.mp h with rfl | h2
          · exact ⟨cur, hb, rfl⟩
          · cases h2
    · rw [if_neg hb] at h
      cases h

theorem mem_slidingMoves {p : Position} {src : Int × Int} {dirs : List (Int × Int)} {m : Move}
    (h : m ∈ slidingMoves p src dirs) :
    ∃ dst : Int × Int, inBounds dst.1 dst.2 ∧ m = mkMove p src dst none .none := by
  obtain ⟨dd, -, hd⟩ := List.mem_flatMap.mp h
  exact mem_rayWalk _ _ hd



theorem mem_addPawnMove {p : Position} {src dst : Int × Int} {m : Move}
    (h : m ∈ addPawnMove p src dst) : ∃ pr, m = mkMove p src dst pr .none := by
  unfold addPawnMove at h
  by_cases hpr : dst.1 = promoRank p.turn
  · rw [if_pos hpr] at h
    obtain ⟨pr, -, hpr2⟩ := List.mem_map.mp h
    exact ⟨some pr, hpr2.symm⟩
  · rw [if_neg hpr] at h
    rcases List.mem_cons.mp h with rfl | hc
    · exact ⟨none, rfl⟩
    · cases hc

theorem mem_pawnMoves {p : Position} {src : Int × Int} {m : Move}
    (h : m ∈ pawnMoves p src) :
    (∃ pr, inBounds (src.1 + dir p.turn) src.2 ∧
      boardGet p.board (src.1 + dir p.turn) src.2 = none ∧
      m = mkMove p src (src.1 + dir p.turn, src.2) pr .none) ∨
    (src.1 = pawnStartRow p.turn ∧
      inBounds (src.1 + dir p.turn) src.2 ∧
      boardGet p.board (src.1 + dir p.turn) src.2 = none ∧
      boardGet p.board (src.1 + 2 * dir p.turn) src.2 = none ∧
      m = mkMove p src (src.1 + 2 * dir p.turn, src.2) none .none) ∨
    (∃ (df : Int) (pr : Option PType) (pc : Piece), (df = -1 ∨ df = 1) ∧
      inBounds (src.1 + dir p.turn) (src.2 + df) ∧
      boardGet p.board (src.1 + dir p.turn) (src.2 + df) = some pc ∧ ¬pc.color = p.turn ∧
      m = mkMove p src (src.1 + dir p.turn, src.2 + df) pr .none) ∨
    (∃ df : Int, (df = -1 ∨ df = 1) ∧
      inBounds (src.1 + dir p.turn) (src.2 + df) ∧
      boardGet p.board (src.1 + dir p.turn) (src.2 + df) = none ∧
      p.ep = some (src.1 + dir p.turn, src.2 + df) ∧
      m = mkMove p src (src.1 + dir p.turn, src.2 + df) none .none) := by
  simp only [pawnMoves] at h
  rcases List.mem_append.mp h with hp | hc
  · by_cases hg : inBounds (src.1 + dir p.turn) src.2 ∧
        boardGet p.board (src.1 + dir p.turn) src.2 = none
    · rw [if_pos hg] at hp
      rcases List.mem_append.mp hp with h1 | h2
      · obtain ⟨pr, hpr⟩ := mem_addPawnMove h1
        exact Or.inl ⟨pr, hg.1, hg.2, hpr⟩
      · by_cases hg2 : src.1 = pawnStartRow p.turn ∧
            boardGet p.board (src.1 + 2 * dir p.turn) src.2 = none
        · rw [if_pos hg2] at h2
          rcases List.mem_cons.mp h2 with rfl | hcc
          · exact Or.inr (Or.inl ⟨hg2.1, hg.1, hg.2, hg2.2, rfl⟩)
          · cases hcc
        · rw [if_neg hg2] at h2
          cases h2
    · rw [if_neg hg] at hp
      cases hp
  · obtain ⟨df, hdf, hdm⟩ := List.mem_flatMap.mp hc
    have hdf2 : df = -1 ∨ df = 1 := by
      rcases List.mem_cons.mp hdf with rfl | hdf1
      · exact Or.inl rfl
      · rcases List.mem_cons.mp hdf1 with rfl | hdf2
        · exact Or.inr rfl
        · cases hdf2
    by_cases hb : inBounds (src.1 + dir p.turn) (src.2 + df)
    · rw [if_pos hb] at hdm
      rcases hocc : boardGet p.board (src.1 + dir p.turn) (src.2 + df) with _ | pc <;>
        simp only [hocc] at hdm
      · by_cases hef : p.ep = some (src.1 + dir p.turn, src.2 + df)
        · rw [if_pos hef] at hdm
          rcases List.mem_cons.mp hdm with rfl | hcc
          · exact Or.inr (Or.inr (Or.inr ⟨df, hdf2, hb, hocc, hef, rfl⟩))
          · cases hcc
        · rw [if_neg hef] at hdm
          cases hdm
      · by_cases hcol : pc.color = p.turn
        · rw [if_pos hcol] at hdm
          cases hdm
        · rw [if_neg hcol] at hdm
          obtain ⟨pr, hpr⟩ := mem_addPawnMove hdm
          exact Or.inr (Or.inr (Or.inl ⟨df, pr, pc, hdf2, hb, hocc, hcol, hpr⟩))
    · rw [if_neg hb] at hdm
      cases hdm

theorem mem_castleMoves {p : Position} {m : Move} (h : m ∈ castleMoves p) :
    m = mkMove p (kingHomeRow p.turn, 4) (kingHomeRow p.turn, 6) none .king ∨
      m = mkMove p (kingHomeRow p.turn, 4) (kingHomeRow p.turn, 2) none .queen := by
  simp only [castleMoves] at h
  rcases List.mem_append.mp h with hk | hq
  · left
    split at hk
    · rcases List.mem_cons.mp hk with rfl | hc
      · rfl
      · cases hc
    · cases hk
  · right
    split at hq
    · rcases List.mem_cons.mp hq with rfl | hc
      · rfl
      · cases hc
    · cases hq

theorem mem_movesFrom {p : Position} {src : Int × Int} {m : Move}
    (h : m ∈ movesFrom p src) :
    ∃ pc : Piece, boardGet p.board src.1 src.2 = some pc ∧ pc.color = p.turn ∧
      ((pc.ptype = .p ∧ m ∈ pawnMoves p src) ∨
        (pc.ptype ≠ .p ∧ ∃ dst : Int × Int, inBounds dst.1 dst.2 ∧
          m = mkMove p src dst none .none)) := by
  unfold movesFrom at h
  rcases hocc : boardGet p.board src.1 src.2 with _ | pc <;> simp only [hocc] at h
  · cases h
  · by_cases hcol : pc.color = p.turn
    · rw [if_pos hcol] at h
      refine ⟨pc, rfl, hcol, ?_⟩
      rcases hpt : pc.ptype with _ | _ | _ | _ | _ | _ <;> rw [hpt] at h
      · exact Or.inl ⟨rfl, h⟩
      · exact Or.inr ⟨by simp, mem_leaperMoves h⟩
      · exact Or.inr ⟨by simp, mem_slidingMoves h⟩
      · exact Or.inr ⟨by simp, mem_slidingMoves h⟩
      · exact Or.inr ⟨by simp, mem_slidingMoves h⟩
      · exact Or.inr ⟨by simp, mem_leaperMoves h⟩
    · rw [if_neg hcol] at h
      cases h

theorem mem_pseudoMoves {p : Position} {m : Move} (h : m ∈ pseudoMoves p) :
    (∃ src : Int × Int, inBounds src.1 src.2 ∧ m ∈ movesFrom p src) ∨
      m ∈ castleMoves p := by
  rcases List.mem_append.mp h with hs | hc
  · obtain ⟨i, hi, hmem⟩ := List.mem_flatMap.mp hs
    have hi2 := List.mem_range.mp hi
    refine Or.inl ⟨(((i / 8 : Nat) : Int), ((i % 8 : Nat) : Int)), ?_, hmem⟩
    show inBounds ((i / 8 : Nat) : Int) ((i % 8 : Nat) : Int)
    have h1 : i / 8 < 8 := Nat.div_lt_of_lt_mul (by omega)
    have h2 : i % 8 < 8 := Nat.mod_lt _ (by omega)
    exact ⟨by positivity, by exact_mod_cast h1, by positivity, by exact_mod_cast h2⟩
  · exact Or.inr hc



/-- Shape facts about generated pawn moves: either a (single or double) push
with no capture, or a diagonal move that captures. -/
def PawnFacts (p : Position) (m : Move) : Prop :=
  (m.fromSq.2 = m.toSq.2 ∧ m.captured = none ∧
    (m.fromSq.1 + dir p.turn = m.toSq.1 ∨
      (m.fromSq.1 + 2 * dir p.turn = m.toSq.1 ∧ m.promotion = none ∧
        boardGet p.board (m.fromSq.1 + dir p.turn) m.fromSq.2 = none ∧
        boardGet p.board m.toSq.1 m.toSq.2 = none))) ∨
  (m.captured.isSome = true ∧ m.fromSq.1 + dir p.turn = m.toSq.1 ∧
    (m.fromSq.2 = m.toSq.2 + 1 ∨ m.fromSq.2 = m.toSq.2 - 1))

/-- Everything the SAN-uniqueness argument needs to know about a move
produced by the generator. -/
def GenFacts (p : Position) (m : Move) : Prop :=
  m = mkMove p m.fromSq m.toSq m.promotion m.castle ∧
  (m.castle = CastleKind.none →
    boardGet p.board m.fromSq.1 m.fromSq.2 = some ⟨p.turn, m.piece⟩ ∧
      inBounds m.fromSq.1 m.fromSq.2 ∧ inBounds m.toSq.1 m.toSq.2) ∧
  (m.castle = CastleKind.king →
    m = mkMove p (kingHomeRow p.turn, 4) (kingHomeRow p.turn, 6) none .king) ∧
  (m.castle = CastleKind.queen →
    m = mkMove p (kingHomeRow p.turn, 4) (kingHomeRow p.turn, 2) none .queen) ∧
  (m.castle = CastleKind.none → m.piece ≠ PType.p → m.promotion = none) ∧
  (m.castle = CastleKind.none → m.piece = PType.p → PawnFacts p m)

theorem color_ne_other (c : Color) : c ≠ c.other := by
  cases c <;> simp [Color.other]

theorem mkMove_piece_of_occ {p : Position} {s : Int × Int} {pc : Piece}
    (hocc : boardGet p.board s.1 s.2 = some pc) (d : Int × Int) (pr : Option PType)
    (ck : CastleKind) : (mkMove p s d pr ck).piece = pc.ptype := by
  simp [mkMove, hocc]

theorem piece_reconstruct {pc : Piece} {c : Color} (h : pc.color = c) :
    pc = ⟨c, pc.ptype⟩ := by
  cases pc
  cases h
  rfl

theorem push_not_ep {p : Position} (hep : EpOk p) {src : Int × Int} {pc : Piece}
    (hocc : boardGet p.board src.1 src.2 = some pc) (hcol : pc.color = p.turn) :
    ¬p.ep = some (src.1 + dir p.turn, src.2) := by
  intro hef
  obtain ⟨-, hbehind⟩ := hep _ hef
  have harith : src.1 + dir p.turn - dir p.turn = src.1 := by ring
  simp only [harith] at hbehind
  rw [hocc] at hbehind
  have : pc.color = p.turn.other := by
    cases hbehind
    rfl
  rw [hcol] at this
  exact color_ne_other _ this

theorem doublepush_not_ep {p : Position} (hep : EpOk p) {src : Int × Int}
    (hmid : boardGet p.board (src.1 + dir p.turn) src.2 = none) :
    ¬p.ep = some (src.1 + 2 * dir p.turn, src.2) := by
  intro hef
  obtain ⟨-, hbehind⟩ := hep _ hef
  have harith : src.1 + 2 * dir p.turn - dir p.turn = src.1 + dir p.turn := by ring
  simp only [harith] at hbehind
  rw [hmid] at hbehind
  cases hbehind

theorem mkMove_captured_quiet {p : Position} {src dst : Int × Int}
    (htgt : boardGet p.board dst.1 dst.2 = none) (hnoep : ¬p.ep = some dst)
    (pr : Option PType) : (mkMove p src dst pr .none).captured = none := by
  simp [mkMove, htgt, hnoep]

theorem mkMove_captured_enemy {p : Position} {src dst : Int × Int} {pc2 : Piece}
    (htgt : boardGet p.board dst.1 dst.2 = some pc2) (hcol2 : ¬pc2.color = p.turn)
    (pr : Option PType) : (mkMove p src dst pr .none).captured = some pc2.ptype := by
  simp [mkMove, htgt, hcol2]

theorem mkMove_captured_ep {p : Position} {src dst : Int × Int} {pc : Piece}
    (hocc : boardGet p.board src.1 src.2 = some pc) (hpt : pc.ptype = PType.p)
    (htgt : boardGet p.board dst.1 dst.2 = none) (hef : p.ep = some dst) :
    (mkMove p src dst none .none).captured = some PType.p := by
  simp [mkMove, hocc, hpt, htgt, hef]



theorem genFacts {p : Position} (hep : EpOk p) {m : Move} (hm : m ∈ pseudoMoves p) :
    GenFacts p m := by
  rcases mem_pseudoMoves hm with ⟨src, hsrc, hmf⟩ | hcas
  · obtain ⟨pc, hocc, hcol, hcase⟩ := mem_movesFrom hmf
    rcases hcase with ⟨hpt, hpm⟩ | ⟨hpt, dst, hdst, rfl⟩
    · -- pawn moves
      rcases mem_pawnMoves hpm with ⟨pr, hb1, he1, rfl⟩ | ⟨hrow, hb1, he1, he2, rfl⟩ |
        ⟨df, pr, pc2, hdf, hb1, hocc2, hcol2, rfl⟩ | ⟨df, hdf, hb1, he1, hef, rfl⟩
      · -- single push
        refine ⟨mkMove_form p src _ pr .none, ?_, ?_, ?_, ?_, ?_⟩
        · intro _
          refine ⟨?_, ?_, ?_⟩
          · rw [mkMove_piece_of_occ hocc, mkMove_fromSq, hocc]
            exact congrArg some (piece_reconstruct hcol)
          · exact hsrc
          · exact hb1
        · intro hck
          cases hck
        · intro hck
          cases hck
        · intro _ hne
          exact absurd (show (mkMove p src (src.1 + dir p.turn, src.2) pr .none).piece
            = PType.p by rw [mkMove_piece_of_occ hocc]; exact hpt) hne
        · intro _ _
          refine Or.inl ⟨rfl, ?_, Or.inl rfl⟩
          exact mkMove_captured_quiet he1 (push_not_ep hep hocc hcol) pr
      · -- double push
        refine ⟨mkMove_form p src _ none .none, ?_, ?_, ?_, ?_, ?_⟩
        · intro _
          refine ⟨?_, ?_, ?_⟩
          · rw [mkMove_piece_of_occ hocc, mkMove_fromSq, hocc]
            exact congrArg some (piece_reconstruct hcol)
          · exact hsrc
          · show inBounds (src.1 + 2 * dir p.turn) src.2
            obtain ⟨a1, a2, a3, a4⟩ := hsrc
            rcases hturn : p.turn with _ | _ <;>
              simp only [hturn, pawnStartRow] at hrow <;>
              simp only [hturn, dir] <;>
              exact ⟨by omega, by omega, a3, a4⟩
        · intro hck
          cases hck
        · intro hck
          cases hck
        · intro _ hne
          exact absurd (show (mkMove p src (src.1 + 2 * dir p.turn, src.2) none .none).piece
            = PType.p by rw [mkMove_piece_of_occ hocc]; exact hpt) hne
        · intro _ _
          refine Or.inl ⟨rfl, ?_, Or.inr ⟨rfl, rfl, he1, he2⟩⟩
          exact mkMove_captured_quiet he2 (doublepush_not_ep hep he1) none
      · -- diagonal capture of an enemy piece
        refine ⟨mkMove_form p src _ pr .none, ?_, ?_, ?_, ?_, ?_⟩
        · intro _
          refine ⟨?_, ?_, ?_⟩
          · rw [mkMove_piece_of_occ hocc, mkMove_fromSq, hocc]
            exact congrArg some (piece_reconstruct hcol)
          · exact hsrc
          · exact hb1
        · intro hck
          cases hck
        · intro hck
          cases hck
        · intro _ hne
          exact absurd (show (mkMove p src (src.1 + dir p.turn, src.2 + df) pr .none).piece
            = PType.p by rw [mkMove_piece_of_occ hocc]; exact hpt) hne
        · intro _ _
          refine Or.inr ⟨?_, rfl, ?_⟩
          · rw [mkMove_captured_enemy hocc2 hcol2 pr]
            rfl
          · show src.2 = src.2 + df + 1 ∨ src.2 = src.2 + df - 1
            rcases hdf with rfl | rfl
            · exact Or.inl (by ring)
            · exact Or.inr (by ring)
      · -- en passant capture
        refine ⟨mkMove_form p src _ none .none, ?_, ?_, ?_, ?_, ?_⟩
        · intro _
          refine ⟨?_, ?_, ?_⟩
          · rw [mkMove_piece_of_occ hocc, mkMove_fromSq, hocc]
            exact congrArg some (piece_reconstruct hcol)
          · exact hsrc
          · exact hb1
        · intro hck
          cases hck
        · intro hck
          cases hck
        · intro _ hne
          exact absurd (show (mkMove p src (src.1 + dir p.turn, src.2 + df) none .none).piece
            = PType.p by rw [mkMove_piece_of_occ hocc]; exact hpt) hne
        · intro _ _
          refine Or.inr ⟨?_, rfl, ?_⟩
          · rw [mkMove_captured_ep hocc hpt he1 hef]
            rfl
          · show src.2 = src.2 + df + 1 ∨ src.2 = src.2 + df - 1
            rcases hdf with rfl | rfl
            · exact Or.inl (by ring)
            · exact Or.inr (by ring)
    · -- non-pawn ordinary move
      refine ⟨mkMove_form p src dst none .none, ?_, ?_, ?_, ?_, ?_⟩
      · intro _
        refine ⟨?_, ?_, ?_⟩
        · rw [mkMove_piece_of_occ hocc, mkMove_fromSq, hocc]
          exact congrArg some (piece_reconstruct hcol)
        · exact hsrc
        · exact hdst
      · intro hck
        cases hck
      · intro hck
        cases hck
      · intro _ _
        exact mkMove_promotion p src dst none .none
      · intro _ hppt
        rw [mkMove_piece_of_occ hocc] at hppt
        exact absurd hppt hpt
  · rcases mem_castleMoves hcas with rfl | rfl
    · refine ⟨mkMove_form p _ _ none .king, ?_, fun _ => rfl, ?_, ?_, ?_⟩ <;>
      · intro hck
        cases hck
    · refine ⟨mkMove_form p _ _ none .queen, ?_, ?_, fun _ => rfl, ?_, ?_⟩ <;>
      · intro hck
        cases hck



theorem promoChars_inj {pr1 pr2 : Option PType} (h : promoChars pr1 = promoChars pr2) :
    pr1 = pr2 := by
  rcases pr1 with _ | a <;> rcases pr2 with _ | c <;> simp [promoChars] at h ⊢
  exact pieceCharUpper_inj h

theorem sanChars_piece {ms : List Move} {m : Move} (hck : m.castle = .none)
    (hp : m.piece ≠ .p) (hpr : m.promotion = none) :
    sanChars ms m = pieceCharUpper m.piece ::
      (disambChars ms m ++ ((if m.captured.isSome then ['x'] else []) ++
        squareChars m.toSq)) := by
  simp [sanChars, hck, hp, hpr]

theorem sanChars_pawn_cap {ms : List Move} {m : Move} (hck : m.castle = .none)
    (hp : m.piece = .p) (hcap : m.captured.isSome = true) :
    sanChars ms m = fileChar m.fromSq.2 :: 'x' ::
      (squareChars m.toSq ++ promoChars m.promotion) := by
  rcases hprm : m.promotion with _ | pr <;>
    simp [sanChars, hck, hp, hcap, hprm, promoChars]

theorem sanChars_pawn_quiet {ms : List Move} {m : Move} (hck : m.castle = .none)
    (hp : m.piece = .p) (hcap : m.captured.isSome = false) :
    sanChars ms m = squareChars m.toSq ++ promoChars m.promotion := by
  rcases hprm : m.promotion with _ | pr <;>
    simp [sanChars, hck, hp, hcap, hprm, promoChars]

theorem sanChars_castle_king {ms : List Move} {m : Move} (hck : m.castle = .king) :
    sanChars ms m = ['O', '-', 'O'] := by
  simp [sanChars, hck]

theorem sanChars_castle_queen {ms : List Move} {m : Move} (hck : m.castle = .queen) :
    sanChars ms m = ['O', '-', 'O', '-', 'O'] := by
  simp [sanChars, hck]

/-- The three possible shapes of a nonempty disambiguation fragment. -/
theorem disambChars_shape (ms : List Move) (m : Move)
    (hne : (ms.filter (fun x =>
      decide (x.piece = m.piece) && decide (x.toSq = m.toSq) &&
        decide (x.fromSq ≠ m.fromSq))).isEmpty = false) :
    disambChars ms m = squareChars m.fromSq ∨
      (disambChars ms m = [rankChar m.fromSq.1] ∧
        (ms.filter (fun x =>
          decide (x.piece = m.piece) && decide (x.toSq = m.toSq) &&
            decide (x.fromSq ≠ m.fromSq))).any
          (fun x => decide (x.fromSq.1 = m.fromSq.1)) = false) ∨
      (disambChars ms m = [fileChar m.fromSq.2] ∧
        (ms.filter (fun x =>
          decide (x.piece = m.piece) && decide (x.toSq = m.toSq) &&
            decide (x.fromSq ≠ m.fromSq))).any
          (fun x => decide (x.fromSq.2 = m.fromSq.2)) = false) := by
  simp only [disambChars]
  rw [hne]
  simp only [Bool.false_eq_true, if_false]
  by_cases hB : (ms.filter (fun x =>
      decide (x.piece = m.piece) && decide (x.toSq = m.toSq) &&
        decide (x.fromSq ≠ m.fromSq))).any
      (fun x => decide (x.fromSq.2 = m.fromSq.2)) = true
  · by_cases hA : (ms.filter (fun x =>
        decide (x.piece = m.piece) && decide (x.toSq = m.toSq) &&
          decide (x.fromSq ≠ m.fromSq))).any
        (fun x => decide (x.fromSq.1 = m.fromSq.1)) = true
    · rw [hA, hB]
      simp
    · rw [hB, Bool.eq_false_iff.mpr hA]
      simp [Bool.eq_false_iff.mpr hA]
  · rw [Bool.eq_false_iff.mpr hB]
    simp [Bool.eq_false_iff.mpr hB]

/-- Two distinct origins with the same piece and destination cannot produce
the same disambiguation fragment. -/
theorem disamb_forces_eq {ms : List Move} {m1 m2 : Move}
    (h1 : m1 ∈ ms) (h2 : m2 ∈ ms)
    (hp : m1.piece = m2.piece) (ht : m1.toSq = m2.toSq)
    (b1r0 : 0 ≤ m1.fromSq.1) (b1r : m1.fromSq.1 < 8) (b1f0 : 0 ≤ m1.fromSq.2)
    (b1f : m1.fromSq.2 < 8)
    (b2r0 : 0 ≤ m2.fromSq.1) (b2r : m2.fromSq.1 < 8) (b2f0 : 0 ≤ m2.fromSq.2)
    (b2f : m2.fromSq.2 < 8)
    (hne : m1.fromSq ≠ m2.fromSq)
    (hd : disambChars ms m1 = disambChars ms m2) : False := by
  have hm2amb : m2 ∈ ms.filter (fun x =>
      decide (x.piece = m1.piece) && decide (x.toSq = m1.toSq) &&
        decide (x.fromSq ≠ m1.fromSq)) :=
    List.mem_filter.mpr ⟨h2, by simp [hp.symm, ht.symm, Ne.symm hne]⟩
  have hm1amb : m1 ∈ ms.filter (fun x =>
      decide (x.piece = m2.piece) && decide (x.toSq = m2.toSq) &&
        decide (x.fromSq ≠ m2.fromSq)) :=
    List.mem_filter.mpr ⟨h1, by simp [hp, ht, hne]⟩
  have hne1 : (ms.filter (fun x =>
      decide (x.piece = m1.piece) && decide (x.toSq = m1.toSq) &&
        decide (x.fromSq ≠ m1.fromSq))).isEmpty = false := by
    rcases hh : ms.filter (fun x =>
      decide (x.piece = m1.piece) && decide (x.toSq = m1.toSq) &&
        decide (x.fromSq ≠ m1.fromSq)) with _ | ⟨a, t⟩
    · rw [hh] at hm2amb
      cases hm2amb
    · rw [hh]
      rfl
  have hne2 : (ms.filter (fun x =>
      decide (x.piece = m2.piece) && decide (x.toSq = m2.toSq) &&
        decide (x.fromSq ≠ m2.fromSq))).isEmpty = false := by
    rcases hh : ms.filter (fun x =>
      decide (x.piece = m2.piece) && decide (x.toSq = m2.toSq) &&
        decide (x.fromSq ≠ m2.fromSq)) with _ | ⟨a, t⟩
    · rw [hh] at hm1amb
      cases hm1amb
    · rw [hh]
      rfl
  rcases disambChars_shape ms m1 hne1 with hs1 | ⟨hs1, hAf1⟩ | ⟨hs1, hBf1⟩ <;>
    rcases disambChars_shape ms m2 hne2 with hs2 | ⟨hs2, hAf2⟩ | ⟨hs2, hBf2⟩ <;>
    rw [hs1, hs2] at hd
  · exact hne (squareChars_inj b1r0 b1r b1f0 b1f b2r0 b2r b2f0 b2f hd)
  · simp [squareChars] at hd
  · simp [squareChars] at hd
  · simp [squareChars] at hd
  · -- rank vs rank
    simp only [List.cons.injEq, and_true] at hd
    have hrows : m2.fromSq.1 = m1.fromSq.1 :=
      (rankChar_inj b1r0 b1r b2r0 b2r hd).symm
    have : (ms.filter (fun x =>
        decide (x.piece = m1.piece) && decide (x.toSq = m1.toSq) &&
          decide (x.fromSq ≠ m1.fromSq))).any
        (fun x => decide (x.fromSq.1 = m1.fromSq.1)) = true :=
      List.any_eq_true.mpr ⟨m2, hm2amb, by simp [hrows]⟩
    rw [this] at hAf1
    cases hAf1
  · -- rank vs file
    simp only [List.cons.injEq, and_true] at hd
    exact (fileChar_ne_rankChar b2f0 b2f b1r0 b1r) hd.symm
  · simp [squareChars] at hd
  · -- file vs rank
    simp only [List.cons.injEq, and_true] at hd
    exact (fileChar_ne_rankChar b1f0 b1f b2r0 b2r) hd
  · -- file vs file
    simp only [List.cons.injEq, and_true] at hd
    have hfiles : m2.fromSq.2 = m1.fromSq.2 :=
      (fileChar_inj b1f0 b1f b2f0 b2f hd).symm
    have : (ms.filter (fun x =>
        decide (x.piece = m1.piece) && decide (x.toSq = m1.toSq) &&
          decide (x.fromSq ≠ m1.fromSq))).any
        (fun x => decide (x.fromSq.2 = m1.fromSq.2)) = true :=
      List.any_eq_true.mpr ⟨m2, hm2amb, by simp [hfiles]⟩
    rw [this] at hBf1
    cases hBf1



theorem mkMove_captured_nonpawn {p : Position} {src : Int × Int} {pc : Piece}
    (hocc : boardGet p.board src.1 src.2 = some pc) (hpt : pc.ptype ≠ PType.p)
    (dst : Int × Int) (pr : Option PType) :
    (mkMove p src dst pr .none).captured =
      (match boardGet p.board dst.1 dst.2 with
        | some en => if en.color = p.turn then none else some en.ptype
        | none => none) := by
  simp [mkMove, hocc, hpt]

/-- A non-castling SAN string starts with a file letter (for pawn moves) or
an uppercase piece letter, never with the letter used by castling. -/
theorem sanChars_noncastle_shape {ms : List Move} {m : Move} (hck : m.castle = .none)
    (hprn : m.piece ≠ .p → m.promotion = none) :
    ∃ c l, sanChars ms m = c :: l ∧
      (c = fileChar m.fromSq.2 ∨ c = fileChar m.toSq.2 ∨
        (m.piece ≠ .p ∧ c = pieceCharUpper m.piece)) := by
  by_cases hpw : m.piece = .p
  · by_cases hcap : m.captured.isSome = true
    · exact ⟨_, _, sanChars_pawn_cap hck hpw hcap, Or.inl rfl⟩
    · rw [Bool.not_eq_true] at hcap
      refine ⟨fileChar m.toSq.2, rankChar m.toSq.1 :: promoChars m.promotion, ?_,
        Or.inr (Or.inl rfl)⟩
      rw [sanChars_pawn_quiet hck hpw hcap]
      rfl
  · exact ⟨_, _, sanChars_piece hck hpw (hprn hpw), Or.inr (Or.inr ⟨hpw, rfl⟩)⟩

theorem san_unique {p : Position} (hep : EpOk p) {m1 m2 : Move}
    (h1 : m1 ∈ legalMoves p) (h2 : m2 ∈ legalMoves p)
    (hsan : sanChars (legalMoves p) m1 = sanChars (legalMoves p) m2) : m1 = m2 := by
  have hp1 : m1 ∈ pseudoMoves p := (List.mem_filter.mp h1).1
  have hp2 : m2 ∈ pseudoMoves p := (List.mem_filter.mp h2).1
  obtain ⟨mk1, occ1, ck1k, ck1q, pr1none, pf1⟩ := genFacts hep hp1
  obtain ⟨mk2, occ2, ck2k, ck2q, pr2none, pf2⟩ := genFacts hep hp2
  rcases hc1 : m1.castle with _ | _ | _ <;> rcases hc2 : m2.castle with _ | _ | _
  -- none / none
  · obtain ⟨hocc1, hbf1, hbt1⟩ := occ1 hc1
    obtain ⟨hocc2, hbf2, hbt2⟩ := occ2 hc2
    obtain ⟨bf1a, bf1b, bf1c, bf1d⟩ := hbf1
    obtain ⟨bt1a, bt1b, bt1c, bt1d⟩ := hbt1
    obtain ⟨bf2a, bf2b, bf2c, bf2d⟩ := hbf2
    obtain ⟨bt2a, bt2b, bt2c, bt2d⟩ := hbt2
    by_cases hpw1 : m1.piece = PType.p <;> by_cases hpw2 : m2.piece = PType.p
    · -- both pawn moves
      by_cases hcap1 : m1.captured.isSome = true <;>
        by_cases hcap2 : m2.captured.isSome = true
      · -- both captures
        rw [sanChars_pawn_cap hc1 hpw1 hcap1, sanChars_pawn_cap hc2 hpw2 hcap2] at hsan
        injection hsan with hff hrest
        injection hrest with hxx htr
        have hfiles : m1.fromSq.2 = m2.fromSq.2 := fileChar_inj bf1c bf1d bf2c bf2d hff
        have hlen : (squareChars m1.toSq).length = (squareChars m2.toSq).length := by
          simp [squareChars]
        obtain ⟨hT, hR⟩ := List.append_inj htr hlen
        have hto : m1.toSq = m2.toSq :=
          squareChars_inj bt1a bt1b bt1c bt1d bt2a bt2b bt2c bt2d hT
        have hpr : m1.promotion = m2.promotion := promoChars_inj hR
        have hrow1 : m1.fromSq.1 + dir p.turn = m1.toSq.1 := by
          rcases pf1 hc1 hpw1 with ⟨-, hnone, -⟩ | ⟨-, hr, -⟩
          · rw [hnone] at hcap1
            cases hcap1
          · exact hr
        have hrow2 : m2.fromSq.1 + dir p.turn = m2.toSq.1 := by
          rcases pf2 hc2 hpw2 with ⟨-, hnone, -⟩ | ⟨-, hr, -⟩
          · rw [hnone] at hcap2
            cases hcap2
          · exact hr
        have hrows : m1.fromSq.1 = m2.fromSq.1 := by
          have hh := congrArg Prod.fst hto
          omega
        have hfrom : m1.fromSq = m2.fromSq := Prod.ext hrows hfiles
        calc m1 = mkMove p m1.fromSq m1.toSq m1.promotion m1.castle := mk1
          _ = mkMove p m2.fromSq m2.toSq m2.promotion m2.castle := by
            rw [hfrom, hto, hpr, hc1, hc2]
          _ = m2 := mk2.symm
      · -- capture vs quiet: impossible, the second character differs
        rw [Bool.not_eq_true] at hcap2
        rw [sanChars_pawn_cap hc1 hpw1 hcap1, sanChars_pawn_quiet hc2 hpw2 hcap2] at hsan
        simp only [squareChars, List.cons_append, List.nil_append] at hsan
        injection hsan with hh1 hrest
        injection hrest with hh2 hrest2
        exact absurd hh2.symm (rankChar_ne_x bt2a bt2b)
      · -- quiet vs capture
        rw [Bool.not_eq_true] at hcap1
        rw [sanChars_pawn_quiet hc1 hpw1 hcap1, sanChars_pawn_cap hc2 hpw2 hcap2] at hsan
        simp only [squareChars, List.cons_append, List.nil_append] at hsan
        injection hsan with hh1 hrest
        injection hrest with hh2 hrest2
        exact absurd hh2 (rankChar_ne_x bt1a bt1b)
      · -- both quiet pushes
        rw [Bool.not_eq_true] at hcap1 hcap2
        rw [sanChars_pawn_quiet hc1 hpw1 hcap1, sanChars_pawn_quiet hc2 hpw2 hcap2] at hsan
        simp only [squareChars, List.cons_append, List.nil_append] at hsan
        injection hsan with hfc hrest
        injection hrest with hrc hR
        have hto : m1.toSq = m2.toSq :=
          Prod.ext (rankChar_inj bt1a bt1b bt2a bt2b hrc) (fileChar_inj bt1c bt1d bt2c bt2d hfc)
        have hpr : m1.promotion = m2.promotion := promoChars_inj hR
        have pf1l := (pf1 hc1 hpw1).resolve_right (by
          rintro ⟨hsome1, -, -⟩
          rw [hcap1] at hsome1
          cases hsome1)
        have pf2l := (pf2 hc2 hpw2).resolve_right (by
          rintro ⟨hsome2, -, -⟩
          rw [hcap2] at hsome2
          cases hsome2)
        obtain ⟨hfile1, -, hrowd1⟩ := pf1l
        obtain ⟨hfile2, -, hrowd2⟩ := pf2l
        have hfeq : m1.fromSq.2 = m2.fromSq.2 := by
          have hh := congrArg Prod.snd hto
          omega
        have hteq1 := congrArg Prod.fst hto
        simp only [] at hteq1
        have hrows : m1.fromSq.1 = m2.fromSq.1 := by
          rcases hrowd1 with h1s | ⟨h1d, -, h1mid, -⟩ <;>
            rcases hrowd2 with h2s | ⟨h2d, -, h2mid, -⟩
          · omega
          · -- m1 single, m2 double: m2's crossed square is m1's origin
            exfalso
            have he1 : m2.fromSq.1 + dir p.turn = m1.fromSq.1 := by omega
            rw [he1, show m2.fromSq.2 = m1.fromSq.2 from hfeq.symm] at h2mid
            rw [hocc1] at h2mid
            cases h2mid
          · exfalso
            have he1 : m1.fromSq.1 + dir p.turn = m2.fromSq.1 := by omega
            rw [he1, show m1.fromSq.2 = m2.fromSq.2 from hfeq] at h1mid
            rw [hocc2] at h1mid
            cases h1mid
          · omega
        have hfrom : m1.fromSq = m2.fromSq := Prod.ext hrows hfeq
        calc m1 = mkMove p m1.fromSq m1.toSq m1.promotion m1.castle := mk1
          _ = mkMove p m2.fromSq m2.toSq m2.promotion m2.castle := by
            rw [hfrom, hto, hpr, hc1, hc2]
          _ = m2 := mk2.symm
    · -- pawn vs piece: first characters live in disjoint alphabets
      exfalso
      rw [sanChars_piece hc2 hpw2 (pr2none hc2 hpw2)] at hsan
      by_cases hcap1 : m1.captured.isSome = true
      · rw [sanChars_pawn_cap hc1 hpw1 hcap1] at hsan
        injection hsan with hh1 hrest
        exact absurd hh1 (fileChar_ne_upper bf1c bf1d _)
      · rw [Bool.not_eq_true] at hcap1
        rw [sanChars_pawn_quiet hc1 hpw1 hcap1] at hsan
        simp only [squareChars, List.cons_append, List.nil_append] at hsan
        injection hsan with hh1 hrest
        exact absurd hh1 (fileChar_ne_upper bt1c bt1d _)
    · -- piece vs pawn
      exfalso
      rw [sanChars_piece hc1 hpw1 (pr1none hc1 hpw1)] at hsan
      by_cases hcap2 : m2.captured.isSome = true
      · rw [sanChars_pawn_cap hc2 hpw2 hcap2] at hsan
        injection hsan with hh1 hrest
        exact absurd hh1.symm (fileChar_ne_upper bf2c bf2d _)
      · rw [Bool.not_eq_true] at hcap2
        rw [sanChars_pawn_quiet hc2 hpw2 hcap2] at hsan
        simp only [squareChars, List.cons_append, List.nil_append] at hsan
        injection hsan with hh1 hrest
        exact absurd hh1.symm (fileChar_ne_upper bt2c bt2d _)
    · -- both piece moves
      rw [sanChars_piece hc1 hpw1 (pr1none hc1 hpw1),
        sanChars_piece hc2 hpw2 (pr2none hc2 hpw2)] at hsan
      injection hsan with hu htail
      have hpiece : m1.piece = m2.piece := pieceCharUpper_inj hu
      rw [← List.append_assoc, ← List.append_assoc] at htail
      have hlen2 : (squareChars m1.toSq).length = (squareChars m2.toSq).length := by
        simp [squareChars]
      have hlen1 : (disambChars (legalMoves p) m1 ++
          (if m1.captured.isSome then ['x'] else [])).length =
          (disambChars (legalMoves p) m2 ++
            (if m2.captured.isSome then ['x'] else [])).length := by
        have := congrArg List.length htail
        simp only [List.length_append] at this
        simp only [List.length_append, squareChars, List.length_cons,
          List.length_nil] at this ⊢
        omega
      obtain ⟨hdx, hT⟩ := List.append_inj htail hlen1
      have hto : m1.toSq = m2.toSq :=
        squareChars_inj bt1a bt1b bt1c bt1d bt2a bt2b bt2c bt2d hT
      have hcapeq : m1.captured = m2.captured := by
        have e1 : m1.captured = (mkMove p m1.fromSq m1.toSq m1.promotion .none).captured := by
          conv_lhs => rw [mk1, hc1]
        have e2 : m2.captured = (mkMove p m2.fromSq m2.toSq m2.promotion .none).captured := by
          conv_lhs => rw [mk2, hc2]
        rw [e1, e2, mkMove_captured_nonpawn hocc1 (by simpa using hpw1) _ _,
          mkMove_captured_nonpawn hocc2 (by simpa using hpw2) _ _, hto]
      have hxlen : (if m1.captured.isSome then (['x'] : List Char) else []).length =
          (if m2.captured.isSome then (['x'] : List Char) else []).length := by
        rw [hcapeq]
      have hdlen : (disambChars (legalMoves p) m1).length =
          (disambChars (legalMoves p) m2).length := by
        have := congrArg List.length hdx
        simp only [List.length_append] at this
        omega
      obtain ⟨hd, -⟩ := List.append_inj hdx hdlen
      by_cases hfrom : m1.fromSq = m2.fromSq
      · calc m1 = mkMove p m1.fromSq m1.toSq m1.promotion m1.castle := mk1
          _ = mkMove p m2.fromSq m2.toSq m2.promotion m2.castle := by
            rw [hfrom, hto, hc1, hc2, pr1none hc1 hpw1, pr2none hc2 hpw2]
          _ = m2 := mk2.symm
      · exact absurd hd (fun hdd => disamb_forces_eq h1 h2 hpiece hto bf1a bf1b bf1c bf1d
          bf2a bf2b bf2c bf2d hfrom hdd)
  -- none / king
  · exfalso
    obtain ⟨c, l, hshape, hcc⟩ := @sanChars_noncastle_shape (legalMoves p) _ hc1
      (pr1none hc1)
    rw [hshape, sanChars_castle_king hc2] at hsan
    obtain ⟨hocc1, hbf1, hbt1⟩ := occ1 hc1
    injection hsan with hhead htl
    rcases hcc with rfl | rfl | ⟨-, rfl⟩
    · exact absurd hhead (fileChar_ne_O hbf1.2.2.1 hbf1.2.2.2)
    · exact absurd hhead (fileChar_ne_O hbt1.2.2.1 hbt1.2.2.2)
    · exact absurd hhead (pieceCharUpper_ne_O _)
  -- none / queen
  · exfalso
    obtain ⟨c, l, hshape, hcc⟩ := @sanChars_noncastle_shape (legalMoves p) _ hc1
      (pr1none hc1)
    rw [hshape, sanChars_castle_queen hc2] at hsan
    obtain ⟨hocc1, hbf1, hbt1⟩ := occ1 hc1
    injection hsan with hhead htl
    rcases hcc with rfl | rfl | ⟨-, rfl⟩
    · exact absurd hhead (fileChar_ne_O hbf1.2.2.1 hbf1.2.2.2)
    · exact absurd hhead (fileChar_ne_O hbt1.2.2.1 hbt1.2.2.2)
    · exact absurd hhead (pieceCharUpper_ne_O _)
  -- king / none
  · exfalso
    obtain ⟨c, l, hshape, hcc⟩ := @sanChars_noncastle_shape (legalMoves p) _ hc2
      (pr2none hc2)
    rw [hshape, sanChars_castle_king hc1] at hsan
    obtain ⟨hocc2, hbf2, hbt2⟩ := occ2 hc2
    injection hsan with hhead htl
    rcases hcc with rfl | rfl | ⟨-, rfl⟩
    · exact absurd hhead.symm (fileChar_ne_O hbf2.2.2.1 hbf2.2.2.2)
    · exact absurd hhead.symm (fileChar_ne_O hbt2.2.2.1 hbt2.2.2.2)
    · exact absurd hhead.symm (pieceCharUpper_ne_O _)
  -- king / king
  · rw [ck1k hc1, ck2k hc2]
  -- king / queen
  · rw [sanChars_castle_king hc1, sanChars_castle_queen hc2] at hsan
    cases hsan
  -- queen / none
  · exfalso
    obtain ⟨c, l, hshape, hcc⟩ := @sanChars_noncastle_shape (legalMoves p) _ hc2
      (pr2none hc2)
    rw [hshape, sanChars_castle_queen hc1] at hsan
    obtain ⟨hocc2, hbf2, hbt2⟩ := occ2 hc2
    injection hsan with hhead htl
    rcases hcc with rfl | rfl | ⟨-, rfl⟩
    · exact absurd hhead.symm (fileChar_ne_O hbf2.2.2.1 hbf2.2.2.2)
    · exact absurd hhead.symm (fileChar_ne_O hbt2.2.2.1 hbt2.2.2.2)
    · exact absurd hhead.symm (pieceCharUpper_ne_O _)
  -- queen / king
  · rw [sanChars_castle_queen hc1, sanChars_castle_king hc2] at hsan
    cases hsan
  -- queen / queen
  · rw [ck1q hc1, ck2q hc2]



theorem dir_cases (c : Color) : dir c = -1 ∨ dir c = 1 := by
  cases c <;> simp [dir]

theorem dir_other (c : Color) : dir c.other = -dir c := by
  cases c <;> simp [dir, Color.other]

theorem other_other (c : Color) : c.other.other = c := by
  cases c <;> rfl

/-- Both castle generation branches require the king on its home square. -/
theorem castleMoves_king_home {p : Position} {m : Move} (hm : m ∈ castleMoves p) :
    boardGet p.board (kingHomeRow p.turn) 4 = some ⟨p.turn, .k⟩ := by
  simp only [castleMoves] at hm
  rcases List.mem_append.mp hm with hk | hq
  · split at hk
    · rename_i hcond
      simp only [Bool.and_eq_true, decide_eq_true_eq] at hcond
      exact hcond.1.1.1.1.1.2
    · cases hk
  · split at hq
    · rename_i hcond
      simp only [Bool.and_eq_true, decide_eq_true_eq] at hcond
      exact hcond.1.1.1.1.1.1.2
    · cases hq

theorem posOk_start : PosOk startPos := by
  constructor
  · rfl
  · intro e he
    cases he

theorem mkMove_double (p : Position) (s d : Int × Int) (pr : Option PType)
    (ck : CastleKind) :
    (mkMove p s d pr ck).double =
      (decide ((match boardGet p.board s.1 s.2 with
        | some pc => pc.ptype
        | none => PType.p) = PType.p) &&
        decide ((s.1 - d.1) = 2 ∨ (d.1 - s.1) = 2)) := rfl

theorem mkMove_ep_eq (p : Position) (s d : Int × Int) (pr : Option PType)
    (ck : CastleKind) :
    (mkMove p s d pr ck).ep =
      (decide (ck = CastleKind.none) &&
        decide ((match boardGet p.board s.1 s.2 with
          | some pc => pc.ptype
          | none => PType.p) = PType.p) &&
        decide (p.ep = some d) && decide (boardGet p.board d.1 d.2 = none)) := rfl



/-- Every non-castling generator branch produces a move with `castle = none`. -/
theorem movesFrom_castle_none {p : Position} {src : Int × Int} {m : Move}
    (h : m ∈ movesFrom p src) : m.castle = .none := by
  obtain ⟨pc, -, -, hcase⟩ := mem_movesFrom h
  rcases hcase with ⟨-, hpm⟩ | ⟨-, dst, -, rfl⟩
  · rcases mem_pawnMoves hpm with ⟨pr, -, -, rfl⟩ | ⟨-, -, -, -, rfl⟩ |
      ⟨df, pr, pc2, -, -, -, -, rfl⟩ | ⟨df, -, -, -, -, rfl⟩ <;> rfl
  · rfl

/-- `applyMove` preserves the 64-square board length. -/
theorem applyMove_board_length {p : Position} (hlen : p.board.length = 64) (m : Move) :
    (applyMove p m).board.length = 64 := by
  rcases hck : m.castle <;>
    by_cases hepf : m.ep = true <;>
      simp [applyMove, hck, hepf, boardSet, List.length_set, hlen]

/-- The reachable-position invariant is preserved by applying a legal move:
the board stays 64 squares long and the new en-passant square (set only on
a double pawn push) is empty with the pushed pawn standing behind it. -/
theorem posOk_apply {p : Position} (hpos : PosOk p) {m : Move} (hm : m ∈ legalMoves p) :
    PosOk (applyMove p m) := by
  obtain ⟨hlen, hep⟩ := hpos
  have hpm : m ∈ pseudoMoves p := (List.mem_filter.mp hm).1
  obtain ⟨mk, occ, ckk, ckq, prn, pf⟩ := genFacts hep hpm
  refine ⟨applyMove_board_length hlen m, ?_⟩
  intro e he
  by_cases hd : m.double = true
  case neg =>
    simp [applyMove, hd] at he
  case pos =>
    have he2 : e = (m.fromSq.1 + dir p.turn, m.fromSq.2) := by
      have h0 : (applyMove p m).ep = some (m.fromSq.1 + dir p.turn, m.fromSq.2) := by
        simp [applyMove, hd]
      rw [h0] at he
      exact (Option.some_inj.mp he).symm
    subst he2
    rcases hck : m.castle with _ | _ | _
    case king =>
      exfalso
      rw [ckk hck, mkMove_double] at hd
      simp at hd
    case queen =>
      exfalso
      rw [ckq hck, mkMove_double] at hd
      simp at hd
    case none =>
      obtain ⟨hocc, hbf, hbt⟩ := occ hck
      have hd2 : (mkMove p m.fromSq m.toSq m.promotion m.castle).double = true := by
        rw [← mk]
        exact hd
      rw [mkMove_double] at hd2
      simp only [hocc, Bool.and_eq_true, decide_eq_true_eq] at hd2
      obtain ⟨hpw, hrows⟩ := hd2
      have pff := pf hck hpw
      rcases pff with ⟨hfile, hcapn, hsingle | ⟨hrow2, hprn2, hmid, htgt⟩⟩ | ⟨-, hrow1, -⟩
      · exfalso
        rcases dir_cases p.turn with hdd | hdd <;> omega
      case intro.intro.intro.inr.intro.intro =>
        exfalso
        rcases dir_cases p.turn with hdd | hdd <;> omega
      case intro.intro.intro.inl.intro.intro.inr.intro.intro.intro =>
        have htoEq : m.toSq = (m.fromSq.1 + 2 * dir p.turn, m.fromSq.2) := by
          exact Prod.ext hrow2.symm hfile.symm
        have hnoep : ¬p.ep = some m.toSq := by
          rw [htoEq]
          exact doublepush_not_ep hep hmid
        have hepflag : m.ep = false := by
          have he3 : (mkMove p m.fromSq m.toSq m.promotion m.castle).ep = m.ep := by
            rw [← mk]
          rw [← he3, mkMove_ep_eq]
          simp [hnoep]
        have hboard : (applyMove p m).board =
            boardSet (boardSet p.board m.fromSq.1 m.fromSq.2 none) m.toSq.1 m.toSq.2
              (some ⟨p.turn, PType.p⟩) := by
          simp [applyMove, hepflag, hck, hprn2, hpw]
        have hturn : (applyMove p m).turn = p.turn.other := rfl
        refine ⟨?_, ?_⟩
        · show boardGet (applyMove p m).board (m.fromSq.1 + dir p.turn) m.fromSq.2 = none
          have hne1 : ((m.toSq.1 : Int), (m.toSq.2 : Int)) ≠
              (m.fromSq.1 + dir p.turn, m.fromSq.2) := by
            intro hq
            rw [Prod.mk.injEq] at hq
            obtain ⟨hq1, -⟩ := hq
            rcases dir_cases p.turn with hdd | hdd <;> omega
          have hne2 : ((m.fromSq.1 : Int), (m.fromSq.2 : Int)) ≠
              (m.fromSq.1 + dir p.turn, m.fromSq.2) := by
            intro hq
            rw [Prod.mk.injEq] at hq
            obtain ⟨hq1, -⟩ := hq
            rcases dir_cases p.turn with hdd | hdd <;> omega
          rw [hboard, boardGet_boardSet_ne hbt hne1, boardGet_boardSet_ne hbf hne2]
          exact hmid
        · show boardGet (applyMove p m).board
            (m.fromSq.1 + dir p.turn - dir (applyMove p m).turn) m.fromSq.2 =
              some ⟨(applyMove p m).turn.other, PType.p⟩
          have harr : m.fromSq.1 + dir p.turn - dir (applyMove p m).turn = m.toSq.1 := by
            rw [hturn, dir_other]
            omega
          rw [harr, hfile, hturn, other_other, hboard]
          exact boardGet_boardSet_self (by rw [boardSet_length]; exact hlen) hbt _



/-- Every reachable game of the hook satisfies the position invariant. -/
theorem wf_posOk {g : Chess} (h : WfGame g) : PosOk g.pos := by
  induction h with
  | init => exact posOk_start
  | step g m hg hm ih => exact posOk_apply ih hm

/-- Replaying the SAN rendered for a legal move finds exactly that move:
the first legal move with the same SAN string is the move itself. -/
theorem moveSan_roundtrip {g : Chess} (hep : EpOk g.pos) {m : Move}
    (hm : m ∈ legalMoves g.pos) :
    g.moveSan (sanOf (legalMoves g.pos) m) = some (g.applyFound m, m) := by
  have hfind : (legalMoves g.pos).find?
      (fun m2 => sanOf (legalMoves g.pos) m2 = sanOf (legalMoves g.pos) m) = some m := by
    apply find?_eq_of_unique _ _ _ hm
    · simp
    · intro x hx hpx
      have h1 : sanOf (legalMoves g.pos) x = sanOf (legalMoves g.pos) m := by
        simpa using hpx
      have h2 : sanChars (legalMoves g.pos) x = sanChars (legalMoves g.pos) m := by
        unfold sanOf at h1
        injection h1
      exact san_unique hep hx hm h2
  simp only [Chess.moveSan]
  rw [hfind]

theorem historySans_applyFound (g : Chess) (m : Move) :
    (g.applyFound m).historySans = g.historySans ++ [sanOf (legalMoves g.pos) m] := by
  simp [Chess.historySans, Chess.applyFound]

theorem traceFens_applyFound (g : Chess) (m : Move) :
    traceFens (g.applyFound m) = traceFens g ++ [fen (applyMove g.pos m)] := by
  simp [traceFens, Chess.positionTrace, Chess.applyFound]

theorem traceCounts_applyFound (g : Chess) (m : Move) :
    traceCounts (g.applyFound m) = bump (traceCounts g) (fen (applyMove g.pos m)) := by
  simp [traceCounts, traceFens_applyFound, List.foldl_append]

theorem moveFromTo_some {g : Chess} {src dst : Int × Int} {pr : PType} {g2 : Chess} {m : Move}
    (h : g.moveFromTo src dst pr = some (g2, m)) :
    m ∈ legalMoves g.pos ∧ g2 = g.applyFound m := by
  unfold Chess.moveFromTo at h
  split at h
  · rename_i m2 hf
    injection h with h1
    injection h1 with hg2 hm2
    cases hm2
    exact ⟨List.mem_of_find?_eq_some hf, hg2.symm⟩
  · exact Option.noConfusion h

/-- The fold at the heart of `rebuildCounts` reconstructs both the game and
the chronological position-count map when run on a reachable game's SAN
history. -/
theorem rebuild_fold_eq {g : Chess} (h : WfGame g) :
    g.historySans.foldl (fun acc san =>
        let t2 := match acc.1.moveSan san with
          | some (g2, _) => g2
          | none => acc.1
        (t2, mapSet acc.2 (fen t2.pos) ((mapGet acc.2 (fen t2.pos)).getD 0 + 1)))
      (newChess, [(fen startPos, 1)]) = (g, traceCounts g) := by
  induction h with
  | init => rfl
  | step g m hg hm ih =>
    rw [historySans_applyFound, List.foldl_append, ih]
    have hms := moveSan_roundtrip (wf_posOk hg).2 hm
    simp [hms]
    rw [traceCounts_applyFound]
    rfl

theorem rebuildCounts_eq {g : Chess} (h : WfGame g) : rebuildCounts g = traceCounts g := by
  unfold rebuildCounts
  rw [rebuild_fold_eq h]




theorem sessionOk_initial : SessionOk initialSession := by
  refine ⟨WfGame.init, rfl, rfl, ?_⟩
  simp [initialSession, mapGet]

theorem sessionOk_commit {s : GameSession} (hok : SessionOk s) {m : Move}
    (hm : m ∈ legalMoves s.game.pos) (sq : Option ((Int × Int) × (Int × Int))) :
    SessionOk (commitMove s (s.game.applyFound m) m sq) := by
  obtain ⟨hwf, hpos, hcnt, hget⟩ := hok
  refine ⟨WfGame.step _ _ hwf hm, rfl, ?_, ?_⟩
  · show bump s.positionCounts (fen (s.game.applyFound m).pos) =
      traceCounts (s.game.applyFound m)
    rw [traceCounts_applyFound, hcnt]
    rfl
  · exact mapGet_mapSet_self _ _ _

theorem handleDrop_true {s : GameSession} {src dst : Int × Int} {s2 : GameSession}
    (h : handleDrop s src (some dst) = (true, s2)) :
    ∃ m, m ∈ legalMoves s.game.pos ∧
      s2 = commitMove s (s.game.applyFound m) m (some (src, dst)) := by
  simp only [handleDrop] at h
  split at h
  · exact absurd (congrArg Prod.fst h) (by simp)
  · split at h
    · exact absurd (congrArg Prod.fst h) (by simp)
    · rename_i g2 m hf
      obtain ⟨hm, hg2⟩ := moveFromTo_some hf
      refine ⟨m, hm, ?_⟩
      injection h with h1 h2
      rw [← h2, hg2]

theorem sessionOk_drop {s : GameSession} (hok : SessionOk s) {src dst : Int × Int}
    {s2 : GameSession} (h : handleDrop s src (some dst) = (true, s2)) : SessionOk s2 := by
  obtain ⟨m, hm, rfl⟩ := handleDrop_true h
  exact sessionOk_commit hok hm _

theorem playDrops_ok {ds : List ((Int × Int) × (Int × Int))} {s0 s : GameSession}
    (h0 : SessionOk s0) (h : playDrops s0 ds = some s) : SessionOk s := by
  induction ds generalizing s0 with
  | nil =>
    injection h with h1
    rw [← h1]
    exact h0
  | cons d rest ih =>
    simp only [playDrops] at h
    split at h
    · rename_i s2 heq
      exact ih (sessionOk_drop h0 heq) h
    · exact Option.noConfusion h

/-- C4: for every sequence of legal drops played from the initial session,
undoing the last successfully applied move restores the game position, the
cached FEN, both capture lists and the repetition counts (the position-count
map and the cached repetition count) exactly to their values immediately
before that move was applied. -/
theorem c4_undo_roundtrip (ds : List ((Int × Int) × (Int × Int))) (src dst : Int × Int)
    (s s2 : GameSession) (hplay : playDrops initialSession ds = some s)
    (hdrop : handleDrop s src (some dst) = (true, s2)) :
    (undoMove s2).game = s.game ∧ (undoMove s2).position = s.position ∧
      (undoMove s2).captures = s.captures ∧
      (undoMove s2).positionCounts = s.positionCounts ∧
      (undoMove s2).repetitionCount = s.repetitionCount := by
  have hok : SessionOk s := playDrops_ok sessionOk_initial hplay
  obtain ⟨m, hm, rfl⟩ := handleDrop_true hdrop
  obtain ⟨hwf, hpos, hcnt, hget⟩ := hok
  have hundo : (commitMove s (s.game.applyFound m) m (some (src, dst))).game.undo
      = some (s.game, m) := rfl
  have hcounts : rebuildCounts s.game = s.positionCounts := by
    rw [rebuildCounts_eq hwf, hcnt]
  refine ⟨?_, ?_, ?_, ?_, ?_⟩
  · simp [undoMove, hundo]
  · simp [undoMove, hundo, hpos]
  · simp only [undoMove, hundo]
    rcases hcap : m.captured with _ | cp
    · simp [commitMove, hcap]
    · rcases hcol : m.color <;>
        simp [commitMove, hcap, hcol, List.dropLast_concat]
  · simp [undoMove, hundo, hcounts]
  · simp [undoMove, hundo, hcounts, ← hpos, hget]


set_option maxRecDepth 400000 in
theorem c4_witness :
    (undoMove c4s2).game = c4s.game ∧ (undoMove c4s2).position = c4s.position ∧
      (undoMove c4s2).captures = c4s.captures ∧
      (undoMove c4s2).positionCounts = c4s.positionCounts ∧
      (undoMove c4s2).repetitionCount = c4s.repetitionCount :=
  c4_undo_roundtrip c4drops (4, 4) (3, 3) c4s c4s2 (by rfl) (by rfl)

end CB
